import Mathlib

/-!
Verification of the XML output filter of the mork-converter repository
(`src/MorkDB/filter/output/xml.py`).

The Python module has two parts:

* an escaping engine: the regexes `_non_char`, `_non_att_value_matcher`,
  `_non_char_data_matcher`, the table `_replacements`, the callback
  `_replacer`, and the entry points `_formatAttribute` / `_formatElementText`;
* a tree writer: `_outputHelper`, `_writeTable`, `_writeMetaTable`,
  `_writeRow`, `_writeCell`, printing indented lines to an output file.

Strings are embedded as lists of Unicode code points (`List Nat`): the
Python module works on `unicode` values that may contain surrogates, which
Lean `Char` cannot represent.  `re.sub` is embedded as a left-to-right
single-pass scanner that, at each position, tries the alternatives of the
corresponding regex in order and otherwise copies one character.  The output
file is embedded as an explicit record of printed lines; each `print >> f`
may fail (modelling an I/O error) according to an optional fail-budget, and
exceptions propagate as `Except.error` carrying the file state at the point
of failure, exactly as the Python code (which has no `try`/`finally`)
propagates an `IOError`.
-/

/-- A Python string, as its list of Unicode code points. -/
abbrev Str := List Nat

/-- Code points of a Lean string literal (all our literals are surrogate-free
ASCII, where `Char.toNat` is the code point). -/
def lit (s : String) : Str := s.data.map Char.toNat

/-- The `_non_char` character class: code points excluded from the XML `Char`
production (control characters, surrogates, U+FFFE/U+FFFF). -/
def _non_char (c : Nat) : Bool :=
  decide (c ≤ 0x08) || decide (c = 0x0B) || decide (c = 0x0C) ||
  (decide (0x0E ≤ c) && decide (c ≤ 0x1F)) ||
  (decide (0xD800 ≤ c) && decide (c ≤ 0xDFFF)) ||
  decide (c = 0xFFFE) || decide (c = 0xFFFF)

/-- Lower-case hexadecimal digit character for a value below 16, as produced
by Python `'%x'` formatting. -/
def hexDigitChar (n : Nat) : Nat := if n < 10 then 0x30 + n else 0x57 + n

/-- Fuel-driven most-significant-first hexadecimal digit expansion. -/
def toHexAux : Nat → Nat → List Nat
  | 0, _ => []
  | fuel + 1, n =>
    if n < 16 then [hexDigitChar n]
    else toHexAux fuel (n / 16) ++ [hexDigitChar (n % 16)]

/-- Code points of Python `'%x' % n`: lower-case hex digits, no leading
zeros, `0` rendered as `"0"`. -/
def toHex (n : Nat) : List Nat := toHexAux (n + 1) n

/-- Code points of Python `'&#x%x;' % c`: the numeric character reference
built by `_replacer` for an illegal character. -/
def ncRef (c : Nat) : Str := 0x26 :: 0x23 :: 0x78 :: toHex c ++ [0x3B]

/-- The `_replacements` dictionary: replacement text for each key it holds,
`none` for any other matched text. -/
def _replacements (m : Str) : Option Str :=
  if m = lit "<" then some (lit "&lt;")
  else if m = lit ">" then some (lit "&gt;")
  else if m = lit "&" then some (lit "&amp;")
  else if m = lit "\"" then some (lit "&quot;")
  else if m = lit "'" then some (lit "&apos;")
  else if m = lit "]]>" then some (lit "]]&gt;")
  else none

/-- The `_replacer` callback: replacement text for the matched text, plus the
number of warnings it emits (`warnings.warn` fires exactly when the matched
text is not in `_replacements`, and then a numeric character reference of the
first matched character is substituted). -/
def _replacer (m : Str) : Str × Nat :=
  match _replacements m with
  | some r => (r, 0)
  | none => (ncRef (m.headD 0), 1)

/-- Single pass of `_non_char_data_matcher.sub(_replacer, ·)`: at each
position try `_non_char`, then `[<&]`, then the literal `]]>`, replacing a
match via `_replacer` and otherwise copying one character.  Returns the
output text and the number of warnings emitted. -/
def escCDCore : Str → Str × Nat
  | [] => ([], 0)
  | 0x5D :: 0x5D :: 0x3E :: rest =>
    let r := _replacer [0x5D, 0x5D, 0x3E]
    let p := escCDCore rest
    (r.1 ++ p.1, r.2 + p.2)
  | c :: rest =>
    if _non_char c = true ∨ c = 0x3C ∨ c = 0x26 then
      let r := _replacer [c]
      let p := escCDCore rest
      (r.1 ++ p.1, r.2 + p.2)
    else
      let p := escCDCore rest
      (c :: p.1, p.2)

/-- Single pass of `_non_att_value_matcher.sub(_replacer, ·)`: at each
position try `_non_char`, then `[<&"]` (note: no apostrophe), replacing a
match via `_replacer` and otherwise copying one character. -/
def escAttCore : Str → Str × Nat
  | [] => ([], 0)
  | c :: rest =>
    if _non_char c = true ∨ c = 0x3C ∨ c = 0x26 ∨ c = 0x22 then
      let r := _replacer [c]
      let p := escAttCore rest
      (r.1 ++ p.1, r.2 + p.2)
    else
      let p := escAttCore rest
      (c :: p.1, p.2)

/-- `_formatAttribute`: the escaped text wrapped in double quotes. -/
def _formatAttribute (value : Str) : Str := 0x22 :: (escAttCore value).1 ++ [0x22]

/-- `_formatElementText`: the `CharData`-escaped text. -/
def _formatElementText (value : Str) : Str := (escCDCore value).1

/-- The spec's name for `_formatAttribute`. -/
def escapeAttributeValue : Str → Str := _formatAttribute

/-- The spec's name for `_formatElementText`. -/
def escapeCharData : Str → Str := _formatElementText

/-- The escaped text of `_formatAttribute` without its surrounding quotes. -/
def attValueBody (s : Str) : Str := (escAttCore s).1

/-- Number of warnings emitted while escaping `s` for attribute context. -/
def attValueWarnings (s : Str) : Nat := (escAttCore s).2

/-- Number of warnings emitted while escaping `s` for character data. -/
def charDataWarnings (s : Str) : Nat := (escCDCore s).2

/-- Lower-case hexadecimal digit test (the digits `toHex` can produce). -/
def isHexDigit (c : Nat) : Bool :=
  (decide (0x30 ≤ c) && decide (c ≤ 0x39)) || (decide (0x61 ≤ c) && decide (c ≤ 0x66))

/-- After `&#x` and one hex digit: consume further hex digits up to a
terminating `;`, returning the remainder after the reference. -/
def hexSemiAux : Str → Option Str
  | [] => none
  | c :: rest =>
    if c = 0x3B then some rest
    else if isHexDigit c then hexSemiAux rest
    else none

/-- Recognizer for the text allowed to follow a `&` in properly escaped
output: one of the named references `lt; gt; amp; quot; apos;` or a numeric
reference `#x` followed by one or more hex digits and `;`.  Returns the
remainder after the reference when it is well formed. -/
def afterAmp (l : Str) : Option Str :=
  if l.take 3 = [0x6C, 0x74, 0x3B] then some (l.drop 3)
  else if l.take 3 = [0x67, 0x74, 0x3B] then some (l.drop 3)
  else if l.take 4 = [0x61, 0x6D, 0x70, 0x3B] then some (l.drop 4)
  else if l.take 5 = [0x71, 0x75, 0x6F, 0x74, 0x3B] then some (l.drop 5)
  else if l.take 5 = [0x61, 0x70, 0x6F, 0x73, 0x3B] then some (l.drop 5)
  else if l.take 2 = [0x23, 0x78] then
    match l.drop 2 with
    | c :: rest => if isHexDigit c then hexSemiAux rest else none
    | [] => none
  else none

/-- Scanner for a literal `]]>` occurrence (three consecutive code points). -/
def hasSeq : Str → Bool
  | a :: b :: c :: rest =>
    (decide (a = 0x5D) && decide (b = 0x5D) && decide (c = 0x3E)) || hasSeq (b :: c :: rest)
  | _ => false

/-- A Mork row: an ordered mapping from column name to cell value, iterated
in stored order (`row.items()`). -/
abbrev MorkRow := List (Str × Str)

/-- A Mork table: an ordered sequence of `(namespace, id, row)` triples. -/
abbrev MorkTable := List (Str × Str × MorkRow)

/-- A Mork metatable: table-level cells plus meta-rows.
Modelled from the spec: the `MorkMetaTable` class itself lives in the part of
the repository outside this filter; per the spec it exposes `cells` (an
ordered column-to-value mapping) and `rows` (ordered namespace/id/row
triples). -/
structure MorkMetaTable where
  cells : List (Str × Str)
  rows : List (Str × Str × MorkRow)

/-- A Mork database.
Modelled from the spec: the `MorkDatabase` class lives outside this filter;
per the spec it exposes `tables`, an ordered mapping from `(namespace, id)`
to table, and `metaTables`, an ordered mapping over the same key space, both
iterated in stored order. -/
structure MorkDatabase where
  tables : List ((Str × Str) × MorkTable)
  metaTables : List ((Str × Str) × MorkMetaTable)

/-- The output file: the printed lines so far, whether `close()` ran, and an
optional fail-budget (`some n` makes the `n`-th subsequent print raise). -/
structure XFile where
  budget : Option Nat
  lines : List Str
  closed : Bool
deriving DecidableEq

/-- One `print >> f, line` statement: appends the line, or raises (returning
the file state unchanged) when the fail-budget is exhausted. -/
def fprint (f : XFile) (line : Str) : Except XFile XFile :=
  match f.budget with
  | none => .ok { f with lines := f.lines ++ [line] }
  | some 0 => .error f
  | some (n + 1) => .ok { f with budget := some n, lines := f.lines ++ [line] }

/-- The `closed` flag of the file carried by a write outcome, whether the
write succeeded or raised. -/
def closedFlag : Except XFile XFile → Bool
  | .ok f => f.closed
  | .error f => f.closed

/-- Whether a write outcome is a success. -/
def writeOk : Except XFile XFile → Bool
  | .ok _ => true
  | .error _ => false

/-- The module's `_indentStr` constant, four spaces. -/
def _indentStr : Str := lit "    "

/-- `_indentStr * indent`: the indentation prefix at a nesting depth. -/
def indentOf (indent : Nat) : Str := List.replicate (4 * indent) 0x20

/-- `_writeCell`: one print of `'%s<cell column=%s>%s</cell>'`. -/
def _writeCell (f : XFile) (column value : Str) (indent : Nat) : Except XFile XFile :=
  fprint f (indentOf indent ++ lit "<cell column=" ++ _formatAttribute column ++
    lit ">" ++ _formatElementText value ++ lit "</cell>")

/-- `_writeRow`: the row open tag, each cell in stored order, the close tag. -/
def _writeRow (f : XFile) (ns oid : Str) (row : MorkRow) (indent : Nat) :
    Except XFile XFile := do
  let f ← fprint f (indentOf indent ++ lit "<row namespace=" ++ _formatAttribute ns ++
    lit " id=" ++ _formatAttribute oid ++ lit ">")
  let f ← row.foldlM (fun f cv => _writeCell f cv.1 cv.2 (indent + 1)) f
  fprint f (indentOf indent ++ lit "</row>")

/-- `_writeMetaTable`: the metatable open tag, each table-level cell in
stored order, each meta-row in stored order, the close tag. -/
def _writeMetaTable (f : XFile) (meta : MorkMetaTable) (indent : Nat) :
    Except XFile XFile := do
  let f ← fprint f (indentOf indent ++ lit "<metatable>")
  let f ← meta.cells.foldlM (fun f cv => _writeCell f cv.1 cv.2 (indent + 1)) f
  let f ← meta.rows.foldlM (fun f r => _writeRow f r.1 r.2.1 r.2.2 (indent + 1)) f
  fprint f (indentOf indent ++ lit "</metatable>")

/-- `_writeTable`: the table open tag, each row in stored order, then the
metatable when present, the close tag. -/
def _writeTable (f : XFile) (ns oid : Str) (table : MorkTable)
    (meta : Option MorkMetaTable) (indent : Nat := 1) : Except XFile XFile := do
  let f ← fprint f (indentOf indent ++ lit "<table namespace=" ++ _formatAttribute ns ++
    lit " id=" ++ _formatAttribute oid ++ lit ">")
  let f ← table.foldlM (fun f r => _writeRow f r.1 r.2.1 r.2.2 (indent + 1)) f
  let f ← (match meta with
    | some m => _writeMetaTable f m (indent + 1)
    | none => pure f)
  fprint f (indentOf indent ++ lit "</table>")

/-- `_outputHelper`: opens the output file named `out` (default
`'mork.xml'`), prints the XML declaration, the root element and each table
with its looked-up metatable, and closes the file after the final print.
Returns the destination file name together with the write outcome. -/
def _outputHelper (db : MorkDatabase) (out : Str := lit "mork.xml")
    (budget : Option Nat := none) : Str × Except XFile XFile :=
  (out, do
    let f : XFile := { budget := budget, lines := [], closed := false }
    let f ← fprint f (lit "<?xml version=\"1.0\" encoding=\"UTF-8\" ?>")
    let f ← fprint f (lit "<morkxml>")
    let f ← db.tables.foldlM
      (fun f t => _writeTable f t.1.1 t.1.2 t.2 (List.lookup t.1 db.metaTables) 1) f
    let f ← fprint f (lit "</morkxml>")
    pure { f with closed := true })

/-- The single line `_writeCell` prints for one cell. -/
def cellLine (column value : Str) (indent : Nat) : Str :=
  indentOf indent ++ lit "<cell column=" ++ _formatAttribute column ++
    lit ">" ++ _formatElementText value ++ lit "</cell>"

/-- Spec-side row block: open tag, one cell line per cell in the row's own
stored order, close tag. -/
def rowLines (ns oid : Str) (row : MorkRow) (indent : Nat) : List Str :=
  (indentOf indent ++ lit "<row namespace=" ++ _formatAttribute ns ++
    lit " id=" ++ _formatAttribute oid ++ lit ">")
    :: (row.map (fun cv => cellLine cv.1 cv.2 (indent + 1))
        ++ [indentOf indent ++ lit "</row>"])

/-- Spec-side metatable block: open tag, all table-level cells in stored
order, then all meta-rows in stored order, close tag. -/
def metaTableLines (meta : MorkMetaTable) (indent : Nat) : List Str :=
  (indentOf indent ++ lit "<metatable>")
    :: (meta.cells.map (fun cv => cellLine cv.1 cv.2 (indent + 1))
        ++ (meta.rows.map (fun r => rowLines r.1 r.2.1 r.2.2 (indent + 1))).flatten
        ++ [indentOf indent ++ lit "</metatable>"])

/-- Spec-side table block: open tag, all rows in stored order, then the
metatable block when a metatable exists, close tag. -/
def tableLines (ns oid : Str) (table : MorkTable) (meta : Option MorkMetaTable)
    (indent : Nat) : List Str :=
  (indentOf indent ++ lit "<table namespace=" ++ _formatAttribute ns ++
    lit " id=" ++ _formatAttribute oid ++ lit ">")
    :: ((table.map (fun r => rowLines r.1 r.2.1 r.2.2 (indent + 1))).flatten
        ++ (match meta with
            | some m => metaTableLines m (indent + 1)
            | none => [])
        ++ [indentOf indent ++ lit "</table>"])

/-- Spec-side document: XML declaration, root open tag, one table block per
table in the database's stored order, root close tag.  No element is
reordered, sorted or deduplicated: every block is a plain concatenation over
the stored sequences. -/
def documentLines (db : MorkDatabase) : List Str :=
  lit "<?xml version=\"1.0\" encoding=\"UTF-8\" ?>"
    :: lit "<morkxml>"
    :: ((db.tables.map
          (fun t => tableLines t.1.1 t.1.2 t.2 (List.lookup t.1 db.metaTables) 1)).flatten
        ++ [lit "</morkxml>"])

/-- The database of the spec's end-to-end example: one table `(ns1, 1)` with
one row `(ns1, r1)` holding the single cell `Name = "A & B"`, no metatable. -/
def exampleDb : MorkDatabase :=
  { tables := [((lit "ns1", lit "1"), [(lit "ns1", lit "r1", [(lit "Name", lit "A & B")])])],
    metaTables := [] }

/-- A character matched by `_non_char` is none of the structurally
significant characters of either context. -/
theorem non_char_ne (c : Nat) (h : _non_char c = true) :
    c ≠ 0x3C ∧ c ≠ 0x26 ∧ c ≠ 0x22 ∧ c ≠ 0x27 ∧ c ≠ 0x5D ∧ c ≠ 0x3E := by
  simp only [_non_char, Bool.or_eq_true, Bool.and_eq_true, decide_eq_true_eq] at h
  refine ⟨?_, ?_, ?_, ?_, ?_, ?_⟩ <;> omega

/-- For an illegal character, `_replacer` substitutes its numeric character
reference and emits one warning. -/
theorem replacer_illegal (c : Nat) (h : _non_char c = true) :
    _replacer [c] = (ncRef c, 1) := by
  obtain ⟨h1, h2, h3, h4, -, h6⟩ := non_char_ne c h
  simp [_replacer, _replacements, lit, h1, h2, h3, h4, h6]

/-- Scanner step: the `]]>` alternative fires. -/
theorem cd_step_cdend (rest : Str) :
    escCDCore (0x5D :: 0x5D :: 0x3E :: rest) =
      (lit "]]&gt;" ++ (escCDCore rest).1, (escCDCore rest).2) := by
  have hrep : _replacer [0x5D, 0x5D, 0x3E] = (lit "]]&gt;", 0) := by decide
  rw [escCDCore.eq_def]
  split
  · rename_i heq; exact absurd heq (by simp)
  · rename_i rest1 heq
    simp only [List.cons.injEq] at heq
    obtain ⟨-, -, -, rfl⟩ := heq
    simp [hrep]
  · rename_i x heq
    obtain ⟨hc, hr⟩ := List.cons.inj heq
    exact (x rest hc.symm hr.symm).elim

/-- Scanner step: a single-character alternative of
`_non_char_data_matcher` fires. -/
theorem cd_step_match (c : Nat) (rest : Str)
    (h : _non_char c = true ∨ c = 0x3C ∨ c = 0x26) :
    escCDCore (c :: rest) =
      ((_replacer [c]).1 ++ (escCDCore rest).1, (_replacer [c]).2 + (escCDCore rest).2) := by
  have hc : c ≠ 0x5D := by
    rcases h with h | h | h
    · exact (non_char_ne c h).2.2.2.2.1
    · omega
    · omega
  rw [escCDCore.eq_def]
  split
  · rename_i heq; exact absurd heq (by simp)
  · rename_i rest1 heq
    exact absurd (List.cons.inj heq).1 hc
  · rename_i x heq
    obtain ⟨rfl, rfl⟩ := List.cons.inj heq
    simp only [if_pos h]

/-- Scanner step: no alternative of `_non_char_data_matcher` fires and the
character is copied. -/
theorem cd_step_raw (c : Nat) (rest : Str)
    (h1 : ¬ (_non_char c = true ∨ c = 0x3C ∨ c = 0x26))
    (h2 : ¬ (c = 0x5D ∧ rest.take 2 = [0x5D, 0x3E])) :
    escCDCore (c :: rest) = (c :: (escCDCore rest).1, (escCDCore rest).2) := by
  rw [escCDCore.eq_def]
  split
  · rename_i heq; exact absurd heq (by simp)
  · rename_i rest1 heq
    obtain ⟨hc, hr⟩ := List.cons.inj heq
    exact absurd ⟨hc, by rw [hr]; rfl⟩ h2
  · rename_i x heq
    obtain ⟨rfl, rfl⟩ := List.cons.inj heq
    simp only [if_neg h1]

/-- Scanner step: a single-character alternative of
`_non_att_value_matcher` fires. -/
theorem att_step_match (c : Nat) (rest : Str)
    (h : _non_char c = true ∨ c = 0x3C ∨ c = 0x26 ∨ c = 0x22) :
    escAttCore (c :: rest) =
      ((_replacer [c]).1 ++ (escAttCore rest).1, (_replacer [c]).2 + (escAttCore rest).2) := by
  simp only [escAttCore, if_pos h]

/-- Scanner step: no alternative of `_non_att_value_matcher` fires and the
character is copied. -/
theorem att_step_raw (c : Nat) (rest : Str)
    (h : ¬ (_non_char c = true ∨ c = 0x3C ∨ c = 0x26 ∨ c = 0x22)) :
    escAttCore (c :: rest) = (c :: (escAttCore rest).1, (escAttCore rest).2) := by
  simp only [escAttCore, if_neg h]

/-- A list whose first two elements are `[a, b]` is `a :: b :: tail`. -/
theorem take_two_shape (l : Str) (a b : Nat) (h : l.take 2 = [a, b]) :
    l = a :: b :: l.drop 2 := by
  rcases l with _ | ⟨x, _ | ⟨y, t⟩⟩ <;> simp_all

/-- Attribute-context escaping distributes over concatenation: every match
of `_non_att_value_matcher` is a single character, so no match can span a
boundary. -/
theorem att_append (a b : Str) :
    escAttCore (a ++ b) =
      ((escAttCore a).1 ++ (escAttCore b).1, (escAttCore a).2 + (escAttCore b).2) := by
  induction a with
  | nil => simp [escAttCore]
  | cons c a1 ih =>
    by_cases hm : _non_char c = true ∨ c = 0x3C ∨ c = 0x26 ∨ c = 0x22
    · rw [List.cons_append, att_step_match c (a1 ++ b) hm, att_step_match c a1 hm, ih]
      simp [List.append_assoc, Nat.add_assoc]
    · rw [List.cons_append, att_step_raw c (a1 ++ b) hm, att_step_raw c a1 hm, ih]
      simp

/-- Character-data escaping distributes over concatenation provided no `]]>`
match spans the boundary: the left part must not end in `]` when the right
part starts with `]>`, nor end in `]]` when the right part starts with `>`. -/
theorem cd_append : ∀ (n : Nat) (a b : Str), a.length ≤ n →
    ¬ (([0x5D] <:+ a) ∧ b.take 2 = [0x5D, 0x3E]) →
    ¬ (([0x5D, 0x5D] <:+ a) ∧ b.take 1 = [0x3E]) →
    escCDCore (a ++ b) =
      ((escCDCore a).1 ++ (escCDCore b).1, (escCDCore a).2 + (escCDCore b).2) := by
  intro n
  induction n with
  | zero =>
    intro a b hlen _ _
    have ha : a = [] := List.eq_nil_of_length_eq_zero (Nat.le_zero.mp hlen)
    subst ha; simp [escCDCore]
  | succ n ih =>
    intro a b hlen h1 h2
    rcases a with _ | ⟨c, a1⟩
    · simp [escCDCore]
    · have hsfx1 : ∀ s : Str, [0x5D] <:+ a1 → [0x5D] <:+ c :: a1 :=
        fun _ h => h.trans (List.suffix_cons c a1)
      have hsfx2 : ∀ s : Str, [0x5D, 0x5D] <:+ a1 → [0x5D, 0x5D] <:+ c :: a1 :=
        fun _ h => h.trans (List.suffix_cons c a1)
      have hlen1 : a1.length ≤ n := by simpa using hlen
      have h1a : ¬ (([0x5D] <:+ a1) ∧ b.take 2 = [0x5D, 0x3E]) :=
        fun ⟨hs, ht⟩ => h1 ⟨hsfx1 b hs, ht⟩
      have h2a : ¬ (([0x5D, 0x5D] <:+ a1) ∧ b.take 1 = [0x3E]) :=
        fun ⟨hs, ht⟩ => h2 ⟨hsfx2 b hs, ht⟩
      by_cases hm : _non_char c = true ∨ c = 0x3C ∨ c = 0x26
      · rw [List.cons_append, cd_step_match c (a1 ++ b) hm, cd_step_match c a1 hm,
          ih a1 b hlen1 h1a h2a]
        simp [List.append_assoc, Nat.add_assoc]
      · by_cases h93 : c = 0x5D ∧ a1.take 2 = [0x5D, 0x3E]
        · obtain ⟨rfl, htk⟩ := h93
          have ha1 : a1 = 0x5D :: 0x3E :: a1.drop 2 := take_two_shape a1 0x5D 0x3E htk
          rw [ha1]
          have hlen2 : (a1.drop 2).length ≤ n := by
            have := List.length_drop 2 a1
            omega
          have hsfx3 : ∀ x : Str, x <:+ a1.drop 2 → x <:+ 0x5D :: 0x5D :: 0x3E :: a1.drop 2 := by
            intro x h
            exact h.trans ((List.suffix_cons 0x3E _).trans
              ((List.suffix_cons 0x5D _).trans (List.suffix_cons 0x5D _)))
          have h1b : ¬ (([0x5D] <:+ a1.drop 2) ∧ b.take 2 = [0x5D, 0x3E]) := by
            rintro ⟨hs, ht⟩
            exact h1 ⟨by rw [ha1] at hsfx3 ⊢; exact hsfx3 _ hs, ht⟩
          have h2b : ¬ (([0x5D, 0x5D] <:+ a1.drop 2) ∧ b.take 1 = [0x3E]) := by
            rintro ⟨hs, ht⟩
            exact h2 ⟨by rw [ha1] at hsfx3 ⊢; exact hsfx3 _ hs, ht⟩
          rw [List.cons_append, List.cons_append, List.cons_append,
            cd_step_cdend (a1.drop 2 ++ b), cd_step_cdend (a1.drop 2),
            ih (a1.drop 2) b hlen2 h1b h2b]
          simp [List.append_assoc]
        · have hraw2 : ¬ (c = 0x5D ∧ (a1 ++ b).take 2 = [0x5D, 0x3E]) := by
            rintro ⟨rfl, htk⟩
            rcases a1 with _ | ⟨x, _ | ⟨y, t⟩⟩
            · exact h1 ⟨List.suffix_refl [0x5D], by simpa using htk⟩
            · simp only [List.cons_append, List.nil_append] at htk
              have hx : x = 0x5D := by
                have := (List.cons.inj (by simpa using htk)).1
                omega
              subst hx
              have hb : b.take 1 = [0x3E] := by
                rcases b with _ | ⟨z, t⟩ <;> simp_all
              exact h2 ⟨List.suffix_refl [0x5D, 0x5D], hb⟩
            · have : List.take 2 (x :: y :: t) = [0x5D, 0x3E] := by
                simp only [List.cons_append] at htk
                simpa using htk
              exact h93 ⟨rfl, this⟩
          rw [List.cons_append, cd_step_raw c (a1 ++ b) hm hraw2, cd_step_raw c a1 hm h93,
            ih a1 b hlen1 h1a h2a]
          simp

/-- On input containing no reserved character of either context, no illegal
character and no `]]>` occurrence, both scanners copy the input verbatim and
emit no warning. -/
theorem clean_core : ∀ s : Str,
    (∀ c ∈ s, _non_char c = false ∧ c ≠ 0x3C ∧ c ≠ 0x26 ∧ c ≠ 0x22) →
    ¬ ([0x5D, 0x5D, 0x3E] <:+: s) →
    escAttCore s = (s, 0) ∧ escCDCore s = (s, 0) := by
  intro s
  induction s with
  | nil => intro _ _; exact ⟨rfl, rfl⟩
  | cons c rest ih =>
    intro hch hseq
    obtain ⟨hc1, hc2, hc3, hc4⟩ := hch c (List.mem_cons_self c rest)
    have hrest : ∀ x ∈ rest, _non_char x = false ∧ x ≠ 0x3C ∧ x ≠ 0x26 ∧ x ≠ 0x22 :=
      fun x hx => hch x (List.mem_cons_of_mem c hx)
    have hseqr : ¬ ([0x5D, 0x5D, 0x3E] <:+: rest) := fun h => hseq (List.infix_cons h)
    obtain ⟨iha, ihc⟩ := ih hrest hseqr
    have hma : ¬ (_non_char c = true ∨ c = 0x3C ∨ c = 0x26 ∨ c = 0x22) := by
      simp [hc1, hc2, hc3, hc4]
    have hmc : ¬ (_non_char c = true ∨ c = 0x3C ∨ c = 0x26) := by
      simp [hc1, hc2, hc3]
    have hnS : ¬ (c = 0x5D ∧ rest.take 2 = [0x5D, 0x3E]) := by
      rintro ⟨rfl, htk⟩
      exact hseq ⟨[], rest.drop 2, by rw [take_two_shape rest 0x5D 0x3E htk]; rfl⟩
    rw [att_step_raw c rest hma, cd_step_raw c rest hmc hnS, iha, ihc]
    exact ⟨rfl, rfl⟩

/-- Unfolding step for the `]]>` scanner. -/
theorem hasSeq_cons (x : Nat) (l : Str) :
    hasSeq (x :: l) =
      ((decide (x = 0x5D) && decide (l.take 2 = [0x5D, 0x3E])) || hasSeq l) := by
  rcases l with _ | ⟨a, _ | ⟨b, t⟩⟩
  · simp [hasSeq]
  · simp [hasSeq]
  · have hstep : hasSeq (x :: a :: b :: t) =
        ((decide (x = 0x5D) && decide (a = 0x5D) && decide (b = 0x3E)) ||
          hasSeq (a :: b :: t)) := rfl
    rw [hstep]
    by_cases h1 : x = 0x5D <;> by_cases h2 : a = 0x5D <;> by_cases h3 : b = 0x3E <;>
      simp [h1, h2, h3]

/-- A `]]>` occurrence as a sublist makes the scanner fire. -/
theorem hasSeq_of_infix (l : Str) (h : [0x5D, 0x5D, 0x3E] <:+: l) : hasSeq l = true := by
  obtain ⟨u, t, hu⟩ := h
  subst hu
  induction u with
  | nil => simp [hasSeq]
  | cons a u ih =>
    simp only [List.cons_append, List.append_assoc, List.nil_append] at ih ⊢
    rw [hasSeq_cons]
    simp [ih]

/-- The escaped attribute text between the surrounding quotes added by
`_formatAttribute`. -/
theorem att_inner (s : Str) :
    ((escapeAttributeValue s).drop 1).dropLast = attValueBody s := by
  simp [escapeAttributeValue, _formatAttribute, attValueBody, List.dropLast_concat]

/-- All digits `hexDigitChar` produces below 16 are lower-case hex digits. -/
theorem hexDigitChar_hex (n : Nat) (h : n < 16) : isHexDigit (hexDigitChar n) = true := by
  simp only [hexDigitChar, isHexDigit]
  split <;> simp <;> omega

/-- Every code point in a `toHexAux` expansion is a lower-case hex digit. -/
theorem toHexAux_hex : ∀ fuel n d, d ∈ toHexAux fuel n → isHexDigit d = true := by
  intro fuel
  induction fuel with
  | zero => intro n d hd; simp [toHexAux] at hd
  | succ fuel ih =>
    intro n d hd
    simp only [toHexAux] at hd
    split at hd
    · rename_i h16
      simp at hd
      exact hd ▸ hexDigitChar_hex n h16
    · rcases List.mem_append.mp hd with h | h
      · exact ih _ _ h
      · simp at h
        exact h ▸ hexDigitChar_hex _ (Nat.mod_lt _ (by omega))

/-- Every code point of `toHex n` is a lower-case hex digit. -/
theorem toHex_hex (n d : Nat) (h : d ∈ toHex n) : isHexDigit d = true :=
  toHexAux_hex _ _ _ h

/-- `toHex` never returns the empty digit string. -/
theorem toHex_ne_nil (n : Nat) : toHex n ≠ [] := by
  simp only [toHex, toHexAux]
  split <;> simp

/-- Numeric facts about hex digits used to separate them from the scanner's
special characters. -/
theorem isHexDigit_facts (d : Nat) (h : isHexDigit d = true) :
    d ≠ 0x3B ∧ d ≠ 0x26 ∧ d ≠ 0x3C ∧ d ≠ 0x22 ∧ d ≠ 0x5D ∧ d ≠ 0x3E ∧ 0x23 ≤ d := by
  simp only [isHexDigit, Bool.or_eq_true, Bool.and_eq_true, decide_eq_true_eq] at h
  refine ⟨?_, ?_, ?_, ?_, ?_, ?_, ?_⟩ <;> omega

/-- `hexSemiAux` consumes a nonempty run of hex digits up to the semicolon. -/
theorem hexSemiAux_digits : ∀ (ds r : Str), (∀ d ∈ ds, isHexDigit d = true) →
    hexSemiAux (ds ++ 0x3B :: r) = some r := by
  intro ds
  induction ds with
  | nil => intro r _; simp [hexSemiAux]
  | cons d ds ih =>
    intro r h
    have hd := h d (List.mem_cons_self d ds)
    have hne := (isHexDigit_facts d hd).1
    simp only [List.cons_append, hexSemiAux, if_neg hne, if_pos hd]
    exact ih r (fun x hx => h x (List.mem_cons_of_mem d hx))

/-- `afterAmp` accepts the tail of `&lt;`. -/
theorem afterAmp_lt (r : Str) : afterAmp (0x6C :: 0x74 :: 0x3B :: r) = some r := by
  simp [afterAmp]

/-- `afterAmp` accepts the tail of `&gt;`. -/
theorem afterAmp_gt (r : Str) : afterAmp (0x67 :: 0x74 :: 0x3B :: r) = some r := by
  simp [afterAmp]

/-- `afterAmp` accepts the tail of `&amp;`. -/
theorem afterAmp_amp (r : Str) : afterAmp (0x61 :: 0x6D :: 0x70 :: 0x3B :: r) = some r := by
  simp [afterAmp]

/-- `afterAmp` accepts the tail of `&quot;`. -/
theorem afterAmp_quot (r : Str) :
    afterAmp (0x71 :: 0x75 :: 0x6F :: 0x74 :: 0x3B :: r) = some r := by
  simp [afterAmp]

/-- `afterAmp` accepts the tail of a numeric character reference. -/
theorem afterAmp_num (c : Nat) (r : Str) :
    afterAmp (0x23 :: 0x78 :: (toHex c ++ 0x3B :: r)) = some r := by
  obtain ⟨d, ds, hd⟩ := List.exists_cons_of_ne_nil (toHex_ne_nil c)
  have hdh : isHexDigit d = true := toHex_hex c d (by rw [hd]; exact List.mem_cons_self d ds)
  have hds : ∀ x ∈ ds, isHexDigit x = true :=
    fun x hx => toHex_hex c x (by rw [hd]; exact List.mem_cons_of_mem d hx)
  rw [hd]
  simp only [afterAmp, List.cons_append]
  rw [if_neg (by simp), if_neg (by simp), if_neg (by simp), if_neg (by simp),
    if_neg (by simp), if_pos (by simp)]
  simp only [List.drop_succ_cons, List.drop_zero, if_pos hdh]
  exact hexSemiAux_digits ds r hds

/-- Splitting a concatenation at a distinguished `&`: the `&` lies either in
the right part or in the left chunk. -/
theorem chunk_split {chunk out u v : Str} (h : chunk ++ out = u ++ 0x26 :: v) :
    (∃ a, out = a ++ 0x26 :: v) ∨ (∃ w, chunk = u ++ 0x26 :: w ∧ v = w ++ out) := by
  rcases List.append_eq_append_iff.mp h with ⟨a, _, hout⟩ | ⟨w, hchunk, hd⟩
  · exact Or.inl ⟨a, hout⟩
  · rcases w with _ | ⟨x, w⟩
    · exact Or.inl ⟨[], by simpa using hd.symm⟩
    · obtain ⟨hx, hv⟩ := List.cons.inj hd
      exact Or.inr ⟨w, by rw [hchunk, ← hx], hv⟩

/-- In a chunk of the form `& :: t` with no further `&`, a split at a `&`
must happen at the head. -/
theorem amp_head_split {t u w : Str} (h : 0x26 :: t = u ++ 0x26 :: w)
    (hn : (0x26 : Nat) ∉ t) : u = [] ∧ w = t := by
  rcases u with _ | ⟨x, u⟩
  · exact ⟨rfl, ((List.cons.inj h).2).symm⟩
  · obtain ⟨hx, ht⟩ := List.cons.inj h
    exact absurd (by rw [ht]; simp : (0x26 : Nat) ∈ t) hn

/-- The tail of a numeric character reference contains no `&`. -/
theorem amp_notin_ncref_tail (c : Nat) :
    (0x26 : Nat) ∉ 0x23 :: 0x78 :: toHex c ++ [0x3B] := by
  intro h
  simp only [List.cons_append, List.mem_cons, List.mem_append, List.mem_singleton] at h
  rcases h with h | h | h | h | h
  · omega
  · omega
  · have := (isHexDigit_facts _ (toHex_hex c _ h)).2.1
    omega
  · omega
  · simp at h

/-- A split at a `&` inside the replacement text for `]]>` happens at its
third character, leaving the tail of `&gt;`. -/
theorem amp_cdend_split {u w : Str} (h : lit "]]&gt;" = u ++ 0x26 :: w) :
    u = [0x5D, 0x5D] ∧ w = [0x67, 0x74, 0x3B] := by
  have hl : lit "]]&gt;" = [0x5D, 0x5D, 0x26, 0x67, 0x74, 0x3B] := by decide
  rw [hl] at h
  rcases u with _ | ⟨x, _ | ⟨y, _ | ⟨z, u⟩⟩⟩
  · simp only [List.nil_append, List.cons.injEq] at h
    exact absurd h.1 (by decide)
  · simp only [List.cons_append, List.nil_append, List.cons.injEq] at h
    exact absurd h.2.1 (by decide)
  · simp only [List.cons_append, List.nil_append, List.cons.injEq] at h
    exact ⟨by rw [← h.1, ← h.2.1], h.2.2.2.symm⟩
  · simp only [List.cons_append, List.cons.injEq] at h
    obtain ⟨-, -, -, htail⟩ := h
    have : (0x26 : Nat) ∈ [0x67, 0x74, 0x3B] := by rw [htail]; simp
    simp at this

/-- Output component of the `]]>` scanner step. -/
theorem cd_out_cdend (rest : Str) :
    (escCDCore (0x5D :: 0x5D :: 0x3E :: rest)).1 = lit "]]&gt;" ++ (escCDCore rest).1 := by
  rw [cd_step_cdend]

/-- Output component of a single-character match step in char data. -/
theorem cd_out_match (c : Nat) (rest : Str)
    (h : _non_char c = true ∨ c = 0x3C ∨ c = 0x26) :
    (escCDCore (c :: rest)).1 = (_replacer [c]).1 ++ (escCDCore rest).1 := by
  rw [cd_step_match c rest h]

/-- Output component of a copy step in char data. -/
theorem cd_out_raw (c : Nat) (rest : Str)
    (h1 : ¬ (_non_char c = true ∨ c = 0x3C ∨ c = 0x26))
    (h2 : ¬ (c = 0x5D ∧ rest.take 2 = [0x5D, 0x3E])) :
    (escCDCore (c :: rest)).1 = c :: (escCDCore rest).1 := by
  rw [cd_step_raw c rest h1 h2]

/-- Output component of a match step in attribute context. -/
theorem att_out_match (c : Nat) (rest : Str)
    (h : _non_char c = true ∨ c = 0x3C ∨ c = 0x26 ∨ c = 0x22) :
    (escAttCore (c :: rest)).1 = (_replacer [c]).1 ++ (escAttCore rest).1 := by
  rw [att_step_match c rest h]

/-- Output component of a copy step in attribute context. -/
theorem att_out_raw (c : Nat) (rest : Str)
    (h : ¬ (_non_char c = true ∨ c = 0x3C ∨ c = 0x26 ∨ c = 0x22)) :
    (escAttCore (c :: rest)).1 = c :: (escAttCore rest).1 := by
  rw [att_step_raw c rest h]

/-- Replacement text component of `_replacer` on an illegal character. -/
theorem replacer_illegal_out (c : Nat) (h : _non_char c = true) :
    (_replacer [c]).1 = ncRef c := by
  rw [replacer_illegal c h]

/-- No raw `<` ever appears in char-data escaper output. -/
theorem cd_no_lt : ∀ (n : Nat) (s : Str), s.length ≤ n → (0x3C : Nat) ∉ (escCDCore s).1 := by
  intro n
  induction n with
  | zero =>
    intro s hlen
    have hs : s = [] := List.eq_nil_of_length_eq_zero (Nat.le_zero.mp hlen)
    subst hs
    simp [escCDCore]
  | succ n ih =>
    intro s hlen
    rcases s with _ | ⟨c, rest⟩
    · simp [escCDCore]
    · have hlen1 : rest.length ≤ n := by simp at hlen; omega
      by_cases hm : _non_char c = true ∨ c = 0x3C ∨ c = 0x26
      · rw [cd_out_match c rest hm]
        intro hmem
        rcases List.mem_append.mp hmem with hL | hR
        · rcases hm with hnc | rfl | rfl
          · rw [replacer_illegal_out c hnc] at hL
            simp only [ncRef, List.cons_append, List.mem_cons, List.mem_append,
              List.mem_singleton] at hL
            rcases hL with h | h | h | h | h | h
            · omega
            · omega
            · omega
            · exact absurd (toHex_hex c _ h) (by decide)
            · omega
            · simp at h
          · rw [show (_replacer [0x3C]).1 = [0x26, 0x6C, 0x74, 0x3B] from by decide] at hL
            simp at hL
          · rw [show (_replacer [0x26]).1 = [0x26, 0x61, 0x6D, 0x70, 0x3B] from by decide] at hL
            simp at hL
        · exact ih rest hlen1 hR
      · by_cases h93 : c = 0x5D ∧ rest.take 2 = [0x5D, 0x3E]
        · obtain ⟨rfl, htk⟩ := h93
          rw [take_two_shape rest _ _ htk, cd_out_cdend]
          intro hmem
          rcases List.mem_append.mp hmem with hL | hR
          · rw [show lit "]]&gt;" = [0x5D, 0x5D, 0x26, 0x67, 0x74, 0x3B] from by decide] at hL
            simp at hL
          · have hlen2 : (rest.drop 2).length ≤ n := by
              have := List.length_drop 2 rest
              omega
            exact ih (rest.drop 2) hlen2 hR
        · rw [cd_out_raw c rest hm h93]
          intro hmem
          rcases List.mem_cons.mp hmem with h | h
          · exact hm (Or.inr (Or.inl h.symm))
          · exact ih rest hlen1 h

/-- Neither a raw `<` nor a raw `"` ever appears in attribute escaper
output. -/
theorem att_no_lt_quot : ∀ s : Str,
    (0x3C : Nat) ∉ (escAttCore s).1 ∧ (0x22 : Nat) ∉ (escAttCore s).1 := by
  intro s
  induction s with
  | nil => simp [escAttCore]
  | cons c rest ih =>
    by_cases hm : _non_char c = true ∨ c = 0x3C ∨ c = 0x26 ∨ c = 0x22
    · rw [att_out_match c rest hm]
      constructor
      · intro hmem
        rcases List.mem_append.mp hmem with hL | hR
        · rcases hm with hnc | rfl | rfl | rfl
          · rw [replacer_illegal_out c hnc] at hL
            simp only [ncRef, List.cons_append, List.mem_cons, List.mem_append,
              List.mem_singleton] at hL
            rcases hL with h | h | h | h | h | h
            · omega
            · omega
            · omega
            · exact absurd (toHex_hex c _ h) (by decide)
            · omega
            · simp at h
          · rw [show (_replacer [0x3C]).1 = [0x26, 0x6C, 0x74, 0x3B] from by decide] at hL
            simp at hL
          · rw [show (_replacer [0x26]).1 = [0x26, 0x61, 0x6D, 0x70, 0x3B] from by decide] at hL
            simp at hL
          · rw [show (_replacer [0x22]).1 = [0x26, 0x71, 0x75, 0x6F, 0x74, 0x3B] from by decide] at hL
            simp at hL
        · exact ih.1 hR
      · intro hmem
        rcases List.mem_append.mp hmem with hL | hR
        · rcases hm with hnc | rfl | rfl | rfl
          · rw [replacer_illegal_out c hnc] at hL
            simp only [ncRef, List.cons_append, List.mem_cons, List.mem_append,
              List.mem_singleton] at hL
            rcases hL with h | h | h | h | h | h
            · omega
            · omega
            · omega
            · exact absurd (toHex_hex c _ h) (by decide)
            · omega
            · simp at h
          · rw [show (_replacer [0x3C]).1 = [0x26, 0x6C, 0x74, 0x3B] from by decide] at hL
            simp at hL
          · rw [show (_replacer [0x26]).1 = [0x26, 0x61, 0x6D, 0x70, 0x3B] from by decide] at hL
            simp at hL
          · rw [show (_replacer [0x22]).1 = [0x26, 0x71, 0x75, 0x6F, 0x74, 0x3B] from by decide] at hL
            simp at hL
        · exact ih.2 hR
    · rw [att_out_raw c rest hm]
      constructor
      · intro hmem
        rcases List.mem_cons.mp hmem with h | h
        · exact hm (Or.inr (Or.inl h.symm))
        · exact ih.1 h
      · intro hmem
        rcases List.mem_cons.mp hmem with h | h
        · exact hm (Or.inr (Or.inr (Or.inr h.symm)))
        · exact ih.2 h

/-- Every `&` in char-data escaper output is immediately followed by a
well-formed reference (one of the named replacements or a numeric character
reference). -/
theorem cd_amp_safe : ∀ (n : Nat) (s : Str), s.length ≤ n →
    ∀ u v, (escCDCore s).1 = u ++ 0x26 :: v → (afterAmp v).isSome = true := by
  intro n
  induction n with
  | zero =>
    intro s hlen u v h
    have hs : s = [] := List.eq_nil_of_length_eq_zero (Nat.le_zero.mp hlen)
    subst hs
    simp [escCDCore] at h
  | succ n ih =>
    intro s hlen u v h
    rcases s with _ | ⟨c, rest⟩
    · simp [escCDCore] at h
    · have hlen1 : rest.length ≤ n := by simp at hlen; omega
      by_cases hm : _non_char c = true ∨ c = 0x3C ∨ c = 0x26
      · rw [cd_out_match c rest hm] at h
        rcases chunk_split h with ⟨a, ha⟩ | ⟨w, hcw, hv⟩
        · exact ih rest hlen1 a v ha
        · rcases hm with hnc | rfl | rfl
          · rw [replacer_illegal_out c hnc] at hcw
            simp only [ncRef] at hcw
            obtain ⟨-, hw⟩ := amp_head_split hcw (amp_notin_ncref_tail c)
            have hv2 : v = 0x23 :: 0x78 :: (toHex c ++ 0x3B :: (escCDCore rest).1) := by
              rw [hv, hw]; simp
            rw [hv2, afterAmp_num]
            rfl
          · rw [show (_replacer [0x3C]).1 = 0x26 :: [0x6C, 0x74, 0x3B] from by decide] at hcw
            obtain ⟨-, hw⟩ := amp_head_split hcw (by decide)
            rw [hv, hw]
            show (afterAmp (0x6C :: 0x74 :: 0x3B :: (escCDCore rest).1)).isSome = true
            rw [afterAmp_lt]
            rfl
          · rw [show (_replacer [0x26]).1 = 0x26 :: [0x61, 0x6D, 0x70, 0x3B] from by decide] at hcw
            obtain ⟨-, hw⟩ := amp_head_split hcw (by decide)
            rw [hv, hw]
            show (afterAmp (0x61 :: 0x6D :: 0x70 :: 0x3B :: (escCDCore rest).1)).isSome = true
            rw [afterAmp_amp]
            rfl
      · by_cases h93 : c = 0x5D ∧ rest.take 2 = [0x5D, 0x3E]
        · obtain ⟨rfl, htk⟩ := h93
          rw [take_two_shape rest _ _ htk, cd_out_cdend] at h
          rcases chunk_split h with ⟨a, ha⟩ | ⟨w, hcw, hv⟩
          · have hlen2 : (rest.drop 2).length ≤ n := by
              have := List.length_drop 2 rest
              omega
            exact ih (rest.drop 2) hlen2 a v ha
          · obtain ⟨-, hw⟩ := amp_cdend_split hcw
            rw [hv, hw]
            show (afterAmp (0x67 :: 0x74 :: 0x3B :: (escCDCore (rest.drop 2)).1)).isSome = true
            rw [afterAmp_gt]
            rfl
        · rw [cd_out_raw c rest hm h93] at h
          rcases u with _ | ⟨x, u⟩
          · obtain ⟨hc, -⟩ := List.cons.inj h
            exact absurd (Or.inr (Or.inr hc)) hm
          · exact ih rest hlen1 u v (List.cons.inj h).2

/-- Every `&` in attribute escaper output is immediately followed by a
well-formed reference. -/
theorem att_amp_safe : ∀ (s : Str) (u v : Str),
    (escAttCore s).1 = u ++ 0x26 :: v → (afterAmp v).isSome = true := by
  intro s
  induction s with
  | nil => intro u v h; simp [escAttCore] at h
  | cons c rest ih =>
    intro u v h
    by_cases hm : _non_char c = true ∨ c = 0x3C ∨ c = 0x26 ∨ c = 0x22
    · rw [att_out_match c rest hm] at h
      rcases chunk_split h with ⟨a, ha⟩ | ⟨w, hcw, hv⟩
      · exact ih a v ha
      · rcases hm with hnc | rfl | rfl | rfl
        · rw [replacer_illegal_out c hnc] at hcw
          simp only [ncRef] at hcw
          obtain ⟨-, hw⟩ := amp_head_split hcw (amp_notin_ncref_tail c)
          have hv2 : v = 0x23 :: 0x78 :: (toHex c ++ 0x3B :: (escAttCore rest).1) := by
            rw [hv, hw]; simp
          rw [hv2, afterAmp_num]
          rfl
        · rw [show (_replacer [0x3C]).1 = 0x26 :: [0x6C, 0x74, 0x3B] from by decide] at hcw
          obtain ⟨-, hw⟩ := amp_head_split hcw (by decide)
          rw [hv, hw]
          show (afterAmp (0x6C :: 0x74 :: 0x3B :: (escAttCore rest).1)).isSome = true
          rw [afterAmp_lt]
          rfl
        · rw [show (_replacer [0x26]).1 = 0x26 :: [0x61, 0x6D, 0x70, 0x3B] from by decide] at hcw
          obtain ⟨-, hw⟩ := amp_head_split hcw (by decide)
          rw [hv, hw]
          show (afterAmp (0x61 :: 0x6D :: 0x70 :: 0x3B :: (escAttCore rest).1)).isSome = true
          rw [afterAmp_amp]
          rfl
        · rw [show (_replacer [0x22]).1 = 0x26 :: [0x71, 0x75, 0x6F, 0x74, 0x3B] from by decide] at hcw
          obtain ⟨-, hw⟩ := amp_head_split hcw (by decide)
          rw [hv, hw]
          show (afterAmp (0x71 :: 0x75 :: 0x6F :: 0x74 :: 0x3B :: (escAttCore rest).1)).isSome = true
          rw [afterAmp_quot]
          rfl
    · rw [att_out_raw c rest hm] at h
      rcases u with _ | ⟨x, u⟩
      · obtain ⟨hc, -⟩ := List.cons.inj h
        exact absurd (Or.inr (Or.inr (Or.inl hc))) hm
      · exact ih u v (List.cons.inj h).2

/-- Prepending text free of `]` cannot create or destroy a `]]>` occurrence
further right. -/
theorem hasSeq_append_no93 : ∀ (l1 l2 : Str), (∀ a ∈ l1, a ≠ 0x5D) →
    hasSeq (l1 ++ l2) = hasSeq l2 := by
  intro l1
  induction l1 with
  | nil => intro l2 _; rfl
  | cons a l1 ih =>
    intro l2 h
    rw [List.cons_append, hasSeq_cons,
      ih l2 (fun x hx => h x (List.mem_cons_of_mem a hx))]
    simp [h a (List.mem_cons_self a l1)]

/-- The replacement text of any single-character match begins with `&`. -/
theorem replacer_starts_amp (c : Nat)
    (h : _non_char c = true ∨ c = 0x3C ∨ c = 0x26 ∨ c = 0x22) :
    ∃ t, (_replacer [c]).1 = 0x26 :: t := by
  rcases h with hnc | rfl | rfl | rfl
  · exact ⟨0x23 :: 0x78 :: toHex c ++ [0x3B], by rw [replacer_illegal_out c hnc]; simp [ncRef]⟩
  · exact ⟨[0x6C, 0x74, 0x3B], by decide⟩
  · exact ⟨[0x61, 0x6D, 0x70, 0x3B], by decide⟩
  · exact ⟨[0x71, 0x75, 0x6F, 0x74, 0x3B], by decide⟩

/-- If char-data escaper output begins with `>`, so does its input. -/
theorem cd_take1_gt : ∀ (n : Nat) (s : Str), s.length ≤ n →
    ((escCDCore s).1).take 1 = [0x3E] → s.take 1 = [0x3E] := by
  intro n
  induction n with
  | zero =>
    intro s hlen h
    have hs : s = [] := List.eq_nil_of_length_eq_zero (Nat.le_zero.mp hlen)
    subst hs
    simp [escCDCore] at h
  | succ n ih =>
    intro s hlen h
    rcases s with _ | ⟨c, rest⟩
    · simp [escCDCore] at h
    · have hlen1 : rest.length ≤ n := by simp at hlen; omega
      by_cases hm : _non_char c = true ∨ c = 0x3C ∨ c = 0x26
      · rw [cd_out_match c rest hm] at h
        obtain ⟨t, ht⟩ := replacer_starts_amp c
          (by rcases hm with h | h | h
              · exact Or.inl h
              · exact Or.inr (Or.inl h)
              · exact Or.inr (Or.inr (Or.inl h)))
        rw [ht] at h
        simp at h
      · by_cases h93 : c = 0x5D ∧ rest.take 2 = [0x5D, 0x3E]
        · obtain ⟨rfl, htk⟩ := h93
          rw [take_two_shape rest _ _ htk, cd_out_cdend,
            show lit "]]&gt;" = [0x5D, 0x5D, 0x26, 0x67, 0x74, 0x3B] from by decide] at h
          simp at h
        · rw [cd_out_raw c rest hm h93] at h
          simp at h
          simp [h]

/-- If char-data escaper output begins with `]>`, so does its input. -/
theorem cd_take2_rbgt : ∀ (n : Nat) (s : Str), s.length ≤ n →
    ((escCDCore s).1).take 2 = [0x5D, 0x3E] → s.take 2 = [0x5D, 0x3E] := by
  intro n
  induction n with
  | zero =>
    intro s hlen h
    have hs : s = [] := List.eq_nil_of_length_eq_zero (Nat.le_zero.mp hlen)
    subst hs
    simp [escCDCore] at h
  | succ n ih =>
    intro s hlen h
    rcases s with _ | ⟨c, rest⟩
    · simp [escCDCore] at h
    · by_cases hm : _non_char c = true ∨ c = 0x3C ∨ c = 0x26
      · rw [cd_out_match c rest hm] at h
        obtain ⟨t, ht⟩ := replacer_starts_amp c
          (by rcases hm with h | h | h
              · exact Or.inl h
              · exact Or.inr (Or.inl h)
              · exact Or.inr (Or.inr (Or.inl h)))
        rw [ht] at h
        simp at h
      · by_cases h93 : c = 0x5D ∧ rest.take 2 = [0x5D, 0x3E]
        · obtain ⟨rfl, htk⟩ := h93
          rw [take_two_shape rest _ _ htk, cd_out_cdend,
            show lit "]]&gt;" = [0x5D, 0x5D, 0x26, 0x67, 0x74, 0x3B] from by decide] at h
          simp at h
        · rw [cd_out_raw c rest hm h93] at h
          simp at h
          obtain ⟨rfl, htl⟩ := h
          have := cd_take1_gt rest.length rest le_rfl htl
          rcases rest with _ | ⟨x, rest⟩
          · simp at this
          · simp at this ⊢
            simpa using this

/-- Char-data escaper output never contains a `]]>` occurrence. -/
theorem cd_no_seq : ∀ (n : Nat) (s : Str), s.length ≤ n →
    hasSeq ((escCDCore s).1) = false := by
  intro n
  induction n with
  | zero =>
    intro s hlen
    have hs : s = [] := List.eq_nil_of_length_eq_zero (Nat.le_zero.mp hlen)
    subst hs
    rfl
  | succ n ih =>
    intro s hlen
    rcases s with _ | ⟨c, rest⟩
    · rfl
    · have hlen1 : rest.length ≤ n := by simp at hlen; omega
      by_cases hm : _non_char c = true ∨ c = 0x3C ∨ c = 0x26
      · rw [cd_out_match c rest hm]
        have hno : ∀ a ∈ (_replacer [c]).1, a ≠ 0x5D := by
          rcases hm with hnc | rfl | rfl
          · rw [replacer_illegal_out c hnc]
            intro a ha
            simp only [ncRef, List.cons_append, List.mem_cons, List.mem_append,
              List.mem_singleton] at ha
            rcases ha with h | h | h | h | h | h
            · omega
            · omega
            · omega
            · have := (isHexDigit_facts _ (toHex_hex c _ h)).2.2.2.2.1
              omega
            · omega
            · simp at h
          · intro a ha
            rw [show (_replacer [0x3C]).1 = [0x26, 0x6C, 0x74, 0x3B] from by decide] at ha
            simp at ha
            omega
          · intro a ha
            rw [show (_replacer [0x26]).1 = [0x26, 0x61, 0x6D, 0x70, 0x3B] from by decide] at ha
            simp at ha
            omega
        rw [hasSeq_append_no93 _ _ hno]
        exact ih rest hlen1
      · by_cases h93 : c = 0x5D ∧ rest.take 2 = [0x5D, 0x3E]
        · obtain ⟨rfl, htk⟩ := h93
          rw [take_two_shape rest _ _ htk, cd_out_cdend,
            show lit "]]&gt;" = [0x5D, 0x5D, 0x26, 0x67, 0x74, 0x3B] from by decide]
          have hlen2 : (rest.drop 2).length ≤ n := by
            have := List.length_drop 2 rest
            omega
          rw [show ([0x5D, 0x5D, 0x26, 0x67, 0x74, 0x3B] : Str) ++ (escCDCore (rest.drop 2)).1 =
            0x5D :: 0x5D :: (([0x26, 0x67, 0x74, 0x3B] : Str) ++ (escCDCore (rest.drop 2)).1)
            from by simp]
          rw [hasSeq_cons, hasSeq_cons, hasSeq_append_no93 _ _ (by decide),
            ih (rest.drop 2) hlen2]
          simp
        · rw [cd_out_raw c rest hm h93, hasSeq_cons, ih rest hlen1]
          have h1 : (decide (c = 0x5D) &&
              decide (((escCDCore rest).1).take 2 = [0x5D, 0x3E])) = false := by
            by_cases hc : c = 0x5D
            · by_cases ht : ((escCDCore rest).1).take 2 = [0x5D, 0x3E]
              · exact absurd ⟨hc, cd_take2_rbgt rest.length rest le_rfl ht⟩ h93
              · simp [ht]
            · simp [hc]
          rw [h1]
          rfl

/-- Bind on a successful write outcome. -/
theorem ok_bind (x : XFile) (k : XFile → Except XFile XFile) :
    (Except.ok x >>= k) = k x := rfl

/-- Bind on a failed write outcome. -/
theorem error_bind (x : XFile) (k : XFile → Except XFile XFile) :
    ((Except.error x : Except XFile XFile) >>= k) = .error x := rfl

/-- A print on a file without fail-budget succeeds and appends one line. -/
theorem fprint_none (f : XFile) (l : Str) (h : f.budget = none) :
    fprint f l = .ok { budget := none, lines := f.lines ++ [l], closed := f.closed } := by
  rcases f with ⟨b, ls, cl⟩
  cases h
  rfl

/-- A monadic fold of line-block writers over a list, starting from a file
without fail-budget, appends the concatenation of the blocks in order. -/
theorem foldlM_blocks {α : Type} (step : XFile → α → Except XFile XFile) (g : α → List Str)
    (hstep : ∀ (f : XFile) (a : α), f.budget = none →
      step f a = .ok { budget := none, lines := f.lines ++ g a, closed := f.closed }) :
    ∀ (l : List α) (f : XFile), f.budget = none →
      l.foldlM step f =
        .ok { budget := none, lines := f.lines ++ (l.map g).flatten, closed := f.closed } := by
  intro l
  induction l with
  | nil =>
    intro f h
    rcases f with ⟨b, ls, cl⟩
    cases h
    simp [List.foldlM_nil]
    rfl
  | cons a l ih =>
    intro f h
    rw [List.foldlM_cons, hstep f a h, ok_bind,
      ih { budget := none, lines := f.lines ++ g a, closed := f.closed } rfl]
    simp

/-- `_writeCell` on a file without fail-budget appends exactly its one cell
line. -/
theorem writeCell_none (f : XFile) (c v : Str) (i : Nat) (h : f.budget = none) :
    _writeCell f c v i =
      .ok { budget := none, lines := f.lines ++ [cellLine c v i], closed := f.closed } :=
  fprint_none f (cellLine c v i) h

/-- Flattening singleton blocks is mapping. -/
theorem flatten_singletons {α β : Type} (l : List α) (g : α → List β) :
    (l.map (fun a => [g a])).flatten = l.map g := by
  induction l with
  | nil => rfl
  | cons a l ih => simp [ih]

/-- Bind on a pure value. -/
theorem pure_bind_x (x : XFile) (k : XFile → Except XFile XFile) :
    ((pure x : Except XFile XFile) >>= k) = k x := rfl

/-- `_writeRow` on a file without fail-budget appends exactly its row block. -/
theorem writeRow_none (f : XFile) (ns oid : Str) (row : MorkRow) (i : Nat)
    (h : f.budget = none) :
    _writeRow f ns oid row i =
      .ok ⟨none, f.lines ++ rowLines ns oid row i, f.closed⟩ := by
  show (fprint f (indentOf i ++ lit "<row namespace=" ++ _formatAttribute ns ++
      lit " id=" ++ _formatAttribute oid ++ lit ">") >>= fun f =>
      row.foldlM (fun f cv => _writeCell f cv.1 cv.2 (i + 1)) f >>= fun f =>
      fprint f (indentOf i ++ lit "</row>")) = _
  rw [fprint_none f _ h, ok_bind]
  rw [@foldlM_blocks (Str × Str) (fun f cv => _writeCell f cv.1 cv.2 (i + 1))
    (fun cv => [cellLine cv.1 cv.2 (i + 1)])
    (fun f cv hf => writeCell_none f cv.1 cv.2 (i + 1) hf) row
    ⟨none, f.lines ++ [indentOf i ++ lit "<row namespace=" ++ _formatAttribute ns ++
      lit " id=" ++ _formatAttribute oid ++ lit ">"], f.closed⟩ rfl]
  rw [ok_bind, fprint_none _ _ rfl]
  simp [rowLines, flatten_singletons]

/-- Pure values in the write monad are successful outcomes. -/
theorem pure_eq_ok (x : XFile) : (pure x : Except XFile XFile) = .ok x := rfl

/-- `_writeMetaTable` on a file without fail-budget appends exactly its
metatable block. -/
theorem writeMetaTable_none (f : XFile) (meta : MorkMetaTable) (i : Nat)
    (h : f.budget = none) :
    _writeMetaTable f meta i =
      .ok ⟨none, f.lines ++ metaTableLines meta i, f.closed⟩ := by
  show (fprint f (indentOf i ++ lit "<metatable>") >>= fun f =>
      meta.cells.foldlM (fun f cv => _writeCell f cv.1 cv.2 (i + 1)) f >>= fun f =>
      meta.rows.foldlM (fun f r => _writeRow f r.1 r.2.1 r.2.2 (i + 1)) f >>= fun f =>
      fprint f (indentOf i ++ lit "</metatable>")) = _
  rw [fprint_none f _ h, ok_bind]
  rw [@foldlM_blocks (Str × Str) (fun f cv => _writeCell f cv.1 cv.2 (i + 1))
    (fun cv => [cellLine cv.1 cv.2 (i + 1)])
    (fun f cv hf => writeCell_none f cv.1 cv.2 (i + 1) hf) meta.cells
    ⟨none, f.lines ++ [indentOf i ++ lit "<metatable>"], f.closed⟩ rfl]
  rw [ok_bind]
  rw [@foldlM_blocks (Str × Str × MorkRow) (fun f r => _writeRow f r.1 r.2.1 r.2.2 (i + 1))
    (fun r => rowLines r.1 r.2.1 r.2.2 (i + 1))
    (fun f r hf => writeRow_none f r.1 r.2.1 r.2.2 (i + 1) hf) meta.rows
    ⟨none, (f.lines ++ [indentOf i ++ lit "<metatable>"]) ++
      (meta.cells.map (fun cv => [cellLine cv.1 cv.2 (i + 1)])).flatten, f.closed⟩ rfl]
  rw [ok_bind, fprint_none _ _ rfl]
  simp [metaTableLines, flatten_singletons]

/-- `_writeTable` on a file without fail-budget appends exactly its table
block. -/
theorem writeTable_none (f : XFile) (ns oid : Str) (table : MorkTable)
    (meta : Option MorkMetaTable) (i : Nat) (h : f.budget = none) :
    _writeTable f ns oid table meta i =
      .ok ⟨none, f.lines ++ tableLines ns oid table meta i, f.closed⟩ := by
  rcases meta with _ | m
  · show (fprint f (indentOf i ++ lit "<table namespace=" ++ _formatAttribute ns ++
        lit " id=" ++ _formatAttribute oid ++ lit ">") >>= fun f =>
        table.foldlM (fun f r => _writeRow f r.1 r.2.1 r.2.2 (i + 1)) f >>= fun f =>
        (pure f : Except XFile XFile) >>= fun f =>
        fprint f (indentOf i ++ lit "</table>")) = _
    rw [fprint_none f _ h, ok_bind]
    rw [@foldlM_blocks (Str × Str × MorkRow) (fun f r => _writeRow f r.1 r.2.1 r.2.2 (i + 1))
      (fun r => rowLines r.1 r.2.1 r.2.2 (i + 1))
      (fun f r hf => writeRow_none f r.1 r.2.1 r.2.2 (i + 1) hf) table
      ⟨none, f.lines ++ [indentOf i ++ lit "<table namespace=" ++ _formatAttribute ns ++
        lit " id=" ++ _formatAttribute oid ++ lit ">"], f.closed⟩ rfl]
    rw [ok_bind, pure_bind_x, fprint_none _ _ rfl]
    simp [tableLines, flatten_singletons]
  · show (fprint f (indentOf i ++ lit "<table namespace=" ++ _formatAttribute ns ++
        lit " id=" ++ _formatAttribute oid ++ lit ">") >>= fun f =>
        table.foldlM (fun f r => _writeRow f r.1 r.2.1 r.2.2 (i + 1)) f >>= fun f =>
        _writeMetaTable f m (i + 1) >>= fun f =>
        fprint f (indentOf i ++ lit "</table>")) = _
    rw [fprint_none f _ h, ok_bind]
    rw [@foldlM_blocks (Str × Str × MorkRow) (fun f r => _writeRow f r.1 r.2.1 r.2.2 (i + 1))
      (fun r => rowLines r.1 r.2.1 r.2.2 (i + 1))
      (fun f r hf => writeRow_none f r.1 r.2.1 r.2.2 (i + 1) hf) table
      ⟨none, f.lines ++ [indentOf i ++ lit "<table namespace=" ++ _formatAttribute ns ++
        lit " id=" ++ _formatAttribute oid ++ lit ">"], f.closed⟩ rfl]
    rw [ok_bind]
    rw [writeMetaTable_none
      ⟨none, (f.lines ++ [indentOf i ++ lit "<table namespace=" ++ _formatAttribute ns ++
        lit " id=" ++ _formatAttribute oid ++ lit ">"]) ++
        (table.map (fun r => rowLines r.1 r.2.1 r.2.2 (i + 1))).flatten, f.closed⟩
      m (i + 1) rfl]
    rw [ok_bind, fprint_none _ _ rfl]
    simp [tableLines, flatten_singletons]

/-- On a file without fail-budget, `_outputHelper` writes exactly the
spec-side document lines and closes the file. -/
theorem outputHelper_none (db : MorkDatabase) (out : Str) :
    (_outputHelper db out none).2 = .ok ⟨none, documentLines db, true⟩ := by
  show (fprint ⟨none, [], false⟩ (lit "<?xml version=\"1.0\" encoding=\"UTF-8\" ?>") >>= fun f =>
      fprint f (lit "<morkxml>") >>= fun f =>
      db.tables.foldlM
        (fun f t => _writeTable f t.1.1 t.1.2 t.2 (List.lookup t.1 db.metaTables) 1) f >>= fun f =>
      fprint f (lit "</morkxml>") >>= fun (f : XFile) =>
      (pure { f with closed := true } : Except XFile XFile)) = _
  rw [fprint_none ⟨none, [], false⟩ _ rfl, ok_bind, fprint_none _ _ rfl, ok_bind]
  rw [@foldlM_blocks ((Str × Str) × MorkTable)
    (fun f t => _writeTable f t.1.1 t.1.2 t.2 (List.lookup t.1 db.metaTables) 1)
    (fun t => tableLines t.1.1 t.1.2 t.2 (List.lookup t.1 db.metaTables) 1)
    (fun f t hf => writeTable_none f t.1.1 t.1.2 t.2 (List.lookup t.1 db.metaTables) 1 hf)
    db.tables
    ⟨none, ([] ++ [lit "<?xml version=\"1.0\" encoding=\"UTF-8\" ?>"]) ++ [lit "<morkxml>"],
      false⟩ rfl]
  rw [ok_bind, fprint_none _ _ rfl, ok_bind]
  simp [pure_eq_ok, documentLines]

/-- Printing never touches the `closed` flag, on success or failure. -/
theorem fprint_closed (f : XFile) (l : Str) : closedFlag (fprint f l) = f.closed := by
  rcases f with ⟨b, ls, cl⟩
  rcases b with _ | ⟨_ | n⟩ <;> rfl

/-- `closedFlag` through a bind: both the first action's outcome and every
continuation preserve the flag value. -/
theorem closedFlag_bind (x : Except XFile XFile) (k : XFile → Except XFile XFile) (b : Bool)
    (hx : closedFlag x = b) (hk : ∀ g, x = .ok g → closedFlag (k g) = b) :
    closedFlag (x >>= k) = b := by
  cases x with
  | error g => rw [error_bind]; exact hx
  | ok g => rw [ok_bind]; exact hk g rfl

/-- A monadic fold of flag-preserving steps preserves the `closed` flag. -/
theorem foldlM_closed {α : Type} (step : XFile → α → Except XFile XFile)
    (hstep : ∀ f a, closedFlag (step f a) = f.closed) :
    ∀ (l : List α) (f : XFile), closedFlag (l.foldlM step f) = f.closed := by
  intro l
  induction l with
  | nil => intro f; rw [List.foldlM_nil]; rfl
  | cons a l ih =>
    intro f
    rw [List.foldlM_cons]
    refine closedFlag_bind _ _ _ (hstep f a) ?_
    intro g hg
    rw [ih g]
    have hval := hstep f a
    rw [hg] at hval
    exact hval

/-- `_writeCell` never touches the `closed` flag. -/
theorem writeCell_closed (f : XFile) (c v : Str) (i : Nat) :
    closedFlag (_writeCell f c v i) = f.closed :=
  fprint_closed f _

/-- `_writeRow` never touches the `closed` flag. -/
theorem writeRow_closed (f : XFile) (ns oid : Str) (row : MorkRow) (i : Nat) :
    closedFlag (_writeRow f ns oid row i) = f.closed := by
  show closedFlag (fprint f (indentOf i ++ lit "<row namespace=" ++ _formatAttribute ns ++
      lit " id=" ++ _formatAttribute oid ++ lit ">") >>= fun f =>
      row.foldlM (fun f cv => _writeCell f cv.1 cv.2 (i + 1)) f >>= fun f =>
      fprint f (indentOf i ++ lit "</row>")) = f.closed
  refine closedFlag_bind _ _ _ (fprint_closed f _) ?_
  intro g hg
  have hgf : g.closed = f.closed := by
    have := fprint_closed f (indentOf i ++ lit "<row namespace=" ++ _formatAttribute ns ++
      lit " id=" ++ _formatAttribute oid ++ lit ">")
    rw [hg] at this
    exact this
  refine closedFlag_bind _ _ _ ?_ ?_
  · rw [@foldlM_closed (Str × Str) (fun f cv => _writeCell f cv.1 cv.2 (i + 1))
        (fun f cv => writeCell_closed f cv.1 cv.2 (i + 1)) row g]
    exact hgf
  · intro g2 hg2
    have hg2g : g2.closed = g.closed := by
      have := @foldlM_closed (Str × Str) (fun f cv => _writeCell f cv.1 cv.2 (i + 1))
        (fun f cv => writeCell_closed f cv.1 cv.2 (i + 1)) row g
      rw [hg2] at this
      exact this
    rw [fprint_closed g2 _, hg2g, hgf]

/-- `_writeMetaTable` never touches the `closed` flag. -/
theorem writeMetaTable_closed (f : XFile) (meta : MorkMetaTable) (i : Nat) :
    closedFlag (_writeMetaTable f meta i) = f.closed := by
  show closedFlag (fprint f (indentOf i ++ lit "<metatable>") >>= fun f =>
      meta.cells.foldlM (fun f cv => _writeCell f cv.1 cv.2 (i + 1)) f >>= fun f =>
      meta.rows.foldlM (fun f r => _writeRow f r.1 r.2.1 r.2.2 (i + 1)) f >>= fun f =>
      fprint f (indentOf i ++ lit "</metatable>")) = f.closed
  refine closedFlag_bind _ _ _ (fprint_closed f _) ?_
  intro g hg
  have hgf : g.closed = f.closed := by
    have := fprint_closed f (indentOf i ++ lit "<metatable>")
    rw [hg] at this
    exact this
  refine closedFlag_bind _ _ _ ?_ ?_
  · rw [@foldlM_closed (Str × Str) (fun f cv => _writeCell f cv.1 cv.2 (i + 1))
        (fun f cv => writeCell_closed f cv.1 cv.2 (i + 1)) meta.cells g]
    exact hgf
  · intro g2 hg2
    have hg2g : g2.closed = g.closed := by
      have := @foldlM_closed (Str × Str) (fun f cv => _writeCell f cv.1 cv.2 (i + 1))
        (fun f cv => writeCell_closed f cv.1 cv.2 (i + 1)) meta.cells g
      rw [hg2] at this
      exact this
    refine closedFlag_bind _ _ _ ?_ ?_
    · rw [@foldlM_closed (Str × Str × MorkRow) (fun f r => _writeRow f r.1 r.2.1 r.2.2 (i + 1))
        (fun f r => writeRow_closed f r.1 r.2.1 r.2.2 (i + 1)) meta.rows g2,
        hg2g]
      exact hgf
    · intro g3 hg3
      have hg3g : g3.closed = g2.closed := by
        have := @foldlM_closed (Str × Str × MorkRow)
          (fun f r => _writeRow f r.1 r.2.1 r.2.2 (i + 1))
          (fun f r => writeRow_closed f r.1 r.2.1 r.2.2 (i + 1)) meta.rows g2
        rw [hg3] at this
        exact this
      rw [fprint_closed g3 _, hg3g, hg2g, hgf]

/-- `_writeTable` never touches the `closed` flag. -/
theorem writeTable_closed (f : XFile) (ns oid : Str) (table : MorkTable)
    (meta : Option MorkMetaTable) (i : Nat) :
    closedFlag (_writeTable f ns oid table meta i) = f.closed := by
  have hmeta : ∀ (g : XFile), closedFlag (match meta with
      | some m => _writeMetaTable g m (i + 1)
      | none => pure g) = g.closed := by
    intro g
    rcases meta with _ | m
    · rfl
    · exact writeMetaTable_closed g m (i + 1)
  show closedFlag (fprint f (indentOf i ++ lit "<table namespace=" ++ _formatAttribute ns ++
      lit " id=" ++ _formatAttribute oid ++ lit ">") >>= fun f =>
      table.foldlM (fun f r => _writeRow f r.1 r.2.1 r.2.2 (i + 1)) f >>= fun f =>
      (match meta with
        | some m => _writeMetaTable f m (i + 1)
        | none => pure f) >>= fun f =>
      fprint f (indentOf i ++ lit "</table>")) = f.closed
  refine closedFlag_bind _ _ _ (fprint_closed f _) ?_
  intro g hg
  have hgf : g.closed = f.closed := by
    have := fprint_closed f (indentOf i ++ lit "<table namespace=" ++ _formatAttribute ns ++
      lit " id=" ++ _formatAttribute oid ++ lit ">")
    rw [hg] at this
    exact this
  refine closedFlag_bind _ _ _ ?_ ?_
  · rw [@foldlM_closed (Str × Str × MorkRow) (fun f r => _writeRow f r.1 r.2.1 r.2.2 (i + 1))
        (fun f r => writeRow_closed f r.1 r.2.1 r.2.2 (i + 1)) table g]
    exact hgf
  · intro g2 hg2
    have hg2g : g2.closed = g.closed := by
      have := @foldlM_closed (Str × Str × MorkRow) (fun f r => _writeRow f r.1 r.2.1 r.2.2 (i + 1))
        (fun f r => writeRow_closed f r.1 r.2.1 r.2.2 (i + 1)) table g
      rw [hg2] at this
      exact this
    refine closedFlag_bind _ _ _ ?_ ?_
    · rw [hmeta g2, hg2g]
      exact hgf
    · intro g3 hg3
      have hg3g : g3.closed = g2.closed := by
        have := hmeta g2
        rw [hg3] at this
        exact this
      rw [fprint_closed g3 _, hg3g, hg2g, hgf]

/-- Propagating the closed/success correspondence through one bind whose
prefix carries an unclosed file. -/
theorem chain_last (x : Except XFile XFile) (k : XFile → Except XFile XFile)
    (hx : closedFlag x = false)
    (hk : ∀ g, x = .ok g → closedFlag (k g) = writeOk (k g)) :
    closedFlag (x >>= k) = writeOk (x >>= k) := by
  cases x with
  | error g => rw [error_bind]; exact hx
  | ok g => rw [ok_bind]; exact hk g rfl

/-- The output file of `_outputHelper` is closed exactly on the successful
exit path: a failed write propagates with the file left unclosed. -/
theorem outputHelper_closed (db : MorkDatabase) (out : Str) (b : Option Nat) :
    closedFlag ((_outputHelper db out b).2) = writeOk ((_outputHelper db out b).2) := by
  show closedFlag
      (fprint ⟨b, [], false⟩ (lit "<?xml version=\"1.0\" encoding=\"UTF-8\" ?>") >>= fun f =>
      fprint f (lit "<morkxml>") >>= fun f =>
      db.tables.foldlM
        (fun f t => _writeTable f t.1.1 t.1.2 t.2 (List.lookup t.1 db.metaTables) 1) f >>= fun f =>
      fprint f (lit "</morkxml>") >>= fun (f : XFile) =>
      (pure { f with closed := true } : Except XFile XFile)) = writeOk
      (fprint ⟨b, [], false⟩ (lit "<?xml version=\"1.0\" encoding=\"UTF-8\" ?>") >>= fun f =>
      fprint f (lit "<morkxml>") >>= fun f =>
      db.tables.foldlM
        (fun f t => _writeTable f t.1.1 t.1.2 t.2 (List.lookup t.1 db.metaTables) 1) f >>= fun f =>
      fprint f (lit "</morkxml>") >>= fun (f : XFile) =>
      (pure { f with closed := true } : Except XFile XFile))
  refine chain_last _ _ (fprint_closed ⟨b, [], false⟩ _) ?_
  intro g1 h1
  have hc1 : g1.closed = false := by
    have := fprint_closed ⟨b, [], false⟩ (lit "<?xml version=\"1.0\" encoding=\"UTF-8\" ?>")
    rw [h1] at this
    exact this
  refine chain_last _ _ ?_ ?_
  · rw [fprint_closed g1 _]
    exact hc1
  · intro g2 h2
    have hc2 : g2.closed = false := by
      have := fprint_closed g1 (lit "<morkxml>")
      rw [h2] at this
      exact this.trans hc1
    refine chain_last _ _ ?_ ?_
    · rw [@foldlM_closed ((Str × Str) × MorkTable)
        (fun f t => _writeTable f t.1.1 t.1.2 t.2 (List.lookup t.1 db.metaTables) 1)
        (fun f t => writeTable_closed f t.1.1 t.1.2 t.2 (List.lookup t.1 db.metaTables) 1)
        db.tables g2]
      exact hc2
    · intro g3 h3
      have hc3 : g3.closed = false := by
        have := @foldlM_closed ((Str × Str) × MorkTable)
          (fun f t => _writeTable f t.1.1 t.1.2 t.2 (List.lookup t.1 db.metaTables) 1)
          (fun f t => writeTable_closed f t.1.1 t.1.2 t.2 (List.lookup t.1 db.metaTables) 1)
          db.tables g2
        rw [h3] at this
        exact this.trans hc2
      refine chain_last _ _ ?_ ?_
      · rw [fprint_closed g3 _]
        exact hc3
      · intro g4 h4
        rfl

/-- Characters below `0x22` (in particular the line feed) never appear in
char-data escaper output unless present in the input: all replacement text
uses code points at or above `0x23`. -/
theorem low_not_mem_cd : ∀ (n : Nat) (s : Str) (a : Nat), s.length ≤ n →
    a < 0x22 → a ∉ s → a ∉ (escCDCore s).1 := by
  intro n
  induction n with
  | zero =>
    intro s a hlen _ _
    have hs : s = [] := List.eq_nil_of_length_eq_zero (Nat.le_zero.mp hlen)
    subst hs
    simp [escCDCore]
  | succ n ih =>
    intro s a hlen ha hns
    rcases s with _ | ⟨c, rest⟩
    · simp [escCDCore]
    · have hlen1 : rest.length ≤ n := by simp at hlen; omega
      have hnr : a ∉ rest := fun hmem => hns (List.mem_cons_of_mem c hmem)
      by_cases hm : _non_char c = true ∨ c = 0x3C ∨ c = 0x26
      · rw [cd_out_match c rest hm]
        intro hmem
        rcases List.mem_append.mp hmem with hL | hR
        · rcases hm with hnc | rfl | rfl
          · rw [replacer_illegal_out c hnc] at hL
            simp only [ncRef, List.cons_append, List.mem_cons, List.mem_append,
              List.mem_singleton] at hL
            rcases hL with h | h | h | h | h | h
            · omega
            · omega
            · omega
            · have := (isHexDigit_facts _ (toHex_hex c _ h)).2.2.2.2.2.2
              omega
            · omega
            · simp at h
          · rw [show (_replacer [0x3C]).1 = [0x26, 0x6C, 0x74, 0x3B] from by decide] at hL
            simp at hL
            omega
          · rw [show (_replacer [0x26]).1 = [0x26, 0x61, 0x6D, 0x70, 0x3B] from by decide] at hL
            simp at hL
            omega
        · exact ih rest a hlen1 ha hnr hR
      · by_cases h93 : c = 0x5D ∧ rest.take 2 = [0x5D, 0x3E]
        · obtain ⟨rfl, htk⟩ := h93
          have hrshape := take_two_shape rest _ _ htk
          rw [hrshape, cd_out_cdend]
          intro hmem
          rcases List.mem_append.mp hmem with hL | hR
          · rw [show lit "]]&gt;" = [0x5D, 0x5D, 0x26, 0x67, 0x74, 0x3B] from by decide] at hL
            simp at hL
            omega
          · have hlen2 : (rest.drop 2).length ≤ n := by
              have := List.length_drop 2 rest
              omega
            have hnd : a ∉ rest.drop 2 := by
              intro hmem2
              exact hnr (by rw [hrshape]; exact
                List.mem_cons_of_mem _ (List.mem_cons_of_mem _ hmem2))
            exact ih (rest.drop 2) a hlen2 ha hnd hR
        · rw [cd_out_raw c rest hm h93]
          intro hmem
          rcases List.mem_cons.mp hmem with h | h
          · exact hns (h ▸ List.mem_cons_self c rest)
          · exact ih rest a hlen1 ha hnr h

/-- Characters below `0x22` never appear in attribute escaper output unless
present in the input. -/
theorem low_not_mem_att : ∀ (s : Str) (a : Nat),
    a < 0x22 → a ∉ s → a ∉ (escAttCore s).1 := by
  intro s
  induction s with
  | nil => intro a _ _; simp [escAttCore]
  | cons c rest ih =>
    intro a ha hns
    have hnr : a ∉ rest := fun hmem => hns (List.mem_cons_of_mem c hmem)
    by_cases hm : _non_char c = true ∨ c = 0x3C ∨ c = 0x26 ∨ c = 0x22
    · rw [att_out_match c rest hm]
      intro hmem
      rcases List.mem_append.mp hmem with hL | hR
      · rcases hm with hnc | rfl | rfl | rfl
        · rw [replacer_illegal_out c hnc] at hL
          simp only [ncRef, List.cons_append, List.mem_cons, List.mem_append,
            List.mem_singleton] at hL
          rcases hL with h | h | h | h | h | h
          · omega
          · omega
          · omega
          · have := (isHexDigit_facts _ (toHex_hex c _ h)).2.2.2.2.2.2
            omega
          · omega
          · simp at h
        · rw [show (_replacer [0x3C]).1 = [0x26, 0x6C, 0x74, 0x3B] from by decide] at hL
          simp at hL
          omega
        · rw [show (_replacer [0x26]).1 = [0x26, 0x61, 0x6D, 0x70, 0x3B] from by decide] at hL
          simp at hL
          omega
        · rw [show (_replacer [0x22]).1 = [0x26, 0x71, 0x75, 0x6F, 0x74, 0x3B] from by decide] at hL
          simp at hL
          omega
      · exact ih a ha hnr hR
    · rw [att_out_raw c rest hm]
      intro hmem
      rcases List.mem_cons.mp hmem with h | h
      · exact hns (h ▸ List.mem_cons_self c rest)
      · exact ih a ha hnr h

/-- The line feed never appears in a cell line when the column name and cell
value are free of it. -/
theorem lf_not_mem_cellLine (col val : Str) (i : Nat)
    (hc : (0x0A : Nat) ∉ col) (hv : (0x0A : Nat) ∉ val) :
    (0x0A : Nat) ∉ cellLine col val i := by
  have h1 : (0x0A : Nat) ∉ indentOf i := by
    simp [indentOf, List.mem_replicate]
  have h2 : (0x0A : Nat) ∉ lit "<cell column=" := by decide
  have h3 : (0x0A : Nat) ∉ _formatAttribute col := by
    have hcore : (0x0A : Nat) ∉ (escAttCore col).1 := low_not_mem_att col 0x0A (by omega) hc
    intro hm
    simp [_formatAttribute, hcore] at hm
  have h4 : (0x0A : Nat) ∉ lit ">" := by decide
  have h5 : (0x0A : Nat) ∉ _formatElementText val :=
    low_not_mem_cd val.length val 0x0A le_rfl (by omega) hv
  have h6 : (0x0A : Nat) ∉ lit "</cell>" := by decide
  intro hmem
  simp only [cellLine, List.mem_append] at hmem
  simp [h1, h2, h3, h4, h5, h6] at hmem

/-- Unfolding of `escapeCharData`. -/
theorem escapeCharData_def (s : Str) : escapeCharData s = (escCDCore s).1 := rfl

/-- Unfolding of `charDataWarnings`. -/
theorem charDataWarnings_def (s : Str) : charDataWarnings s = (escCDCore s).2 := rfl

/-- Unfolding of `attValueBody`. -/
theorem attValueBody_def (s : Str) : attValueBody s = (escAttCore s).1 := rfl

/-- Unfolding of `attValueWarnings`. -/
theorem attValueWarnings_def (s : Str) : attValueWarnings s = (escAttCore s).2 := rfl

/-- C1 (amended): escapeCharData output contains no raw `<`, no `]]>`
occurrence, and every `&` in it starts a well-formed reference; the text
between the quotes added by escapeAttributeValue contains no raw `<` and no
raw `"`, and every `&` in it starts a well-formed reference.  (As stated the
claim is false: the attribute matcher `[<&"]` does not include the
apostrophe, so a raw `'` survives in attribute values; see the
counterexample.) -/
theorem c1_escape_roundtrip_amended (s : Str) :
    (0x3C : Nat) ∉ escapeCharData s ∧
    ¬ ([0x5D, 0x5D, 0x3E] <:+: escapeCharData s) ∧
    (∀ u v, escapeCharData s = u ++ 0x26 :: v → (afterAmp v).isSome = true) ∧
    (0x3C : Nat) ∉ ((escapeAttributeValue s).drop 1).dropLast ∧
    (0x22 : Nat) ∉ ((escapeAttributeValue s).drop 1).dropLast ∧
    (∀ u v, ((escapeAttributeValue s).drop 1).dropLast = u ++ 0x26 :: v →
      (afterAmp v).isSome = true) := by
  have e2 : ((escapeAttributeValue s).drop 1).dropLast = (escAttCore s).1 := att_inner s
  rw [e2]
  refine ⟨cd_no_lt s.length s le_rfl, ?_, cd_amp_safe s.length s le_rfl,
    (att_no_lt_quot s).1, (att_no_lt_quot s).2, att_amp_safe s⟩
  intro hin
  have := hasSeq_of_infix _ hin
  rw [escapeCharData_def, cd_no_seq s.length s le_rfl] at this
  exact Bool.false_ne_true this

/-- C1 witness: at the input `"&"`, the character-data output is `&amp;` and
the theorem's reference check accepts the text after its `&`. -/
theorem c1_escape_roundtrip_amended_witness :
    (afterAmp [0x61, 0x6D, 0x70, 0x3B]).isSome = true :=
  (c1_escape_roundtrip_amended [0x26]).2.2.1 [] [0x61, 0x6D, 0x70, 0x3B] (by decide)

/-- C1 counterexample: `_formatAttribute` leaves the apostrophe raw between
its surrounding quotes, so the claim's list of escaped attribute characters
(`<`, `&`, `"`, `'`) is wrong about `'`. -/
theorem c1_apos_counterexample :
    escapeAttributeValue [0x27] = [0x22, 0x27, 0x22] ∧
    (0x27 : Nat) ∈ ((escapeAttributeValue [0x27]).drop 1).dropLast := by
  refine ⟨by decide, by decide⟩

/-- C2: an illegal character anywhere in the input is replaced, in both
contexts, by the numeric character reference `&#x…;` of its code point with
exactly one extra warning, and the surrounding text is escaped exactly as it
is on its own; `ncRef 0` is the five-character string `&#x0;`.  The escapers
are total functions: they never raise and never drop input. -/
theorem c2_illegal_numeric_reference (pre post : Str) (c : Nat)
    (h : _non_char c = true) :
    escapeCharData (pre ++ c :: post) =
      escapeCharData pre ++ ncRef c ++ escapeCharData post ∧
    charDataWarnings (pre ++ c :: post) =
      charDataWarnings pre + charDataWarnings post + 1 ∧
    attValueBody (pre ++ c :: post) = attValueBody pre ++ ncRef c ++ attValueBody post ∧
    attValueWarnings (pre ++ c :: post) =
      attValueWarnings pre + attValueWarnings post + 1 ∧
    ncRef 0 = lit "&#x0;" := by
  have hne := non_char_ne c h
  have cond1 : ¬ (([0x5D] <:+ pre) ∧ (c :: post).take 2 = [0x5D, 0x3E]) := by
    rintro ⟨-, htk⟩
    rcases post with _ | ⟨p, post⟩
    · simp at htk
    · simp at htk
      exact hne.2.2.2.2.1 htk.1
  have cond2 : ¬ (([0x5D, 0x5D] <:+ pre) ∧ (c :: post).take 1 = [0x3E]) := by
    rintro ⟨-, htk⟩
    simp at htk
    exact hne.2.2.2.2.2 htk
  have hcd := cd_append pre.length pre (c :: post) le_rfl cond1 cond2
  have hstep := cd_step_match c post (Or.inl h)
  rw [replacer_illegal c h] at hstep
  have hatt := att_append pre (c :: post)
  have hstepa := att_step_match c post (Or.inl h)
  rw [replacer_illegal c h] at hstepa
  refine ⟨?_, ?_, ?_, ?_, by decide⟩
  · show (escCDCore (pre ++ c :: post)).1 = _
    rw [hcd, hstep]
    simp [escapeCharData_def, List.append_assoc]
  · show (escCDCore (pre ++ c :: post)).2 = _
    rw [hcd, hstep]
    simp [charDataWarnings_def]
    omega
  · show (escAttCore (pre ++ c :: post)).1 = _
    rw [hatt, hstepa]
    simp [attValueBody_def, List.append_assoc]
  · show (escAttCore (pre ++ c :: post)).2 = _
    rw [hatt, hstepa]
    simp [attValueWarnings_def]
    omega

/-- C2 witness: escaping `a\x00b` for character data yields `a&#x0;b`. -/
theorem c2_illegal_numeric_reference_witness :
    escapeCharData ([0x61] ++ 0 :: [0x62]) =
      escapeCharData [0x61] ++ ncRef 0 ++ escapeCharData [0x62] :=
  (c2_illegal_numeric_reference [0x61] [0x62] 0 (by decide)).1

/-- C3: on input free of the reserved characters of both contexts (including
the `]]>` sequence) and of illegal characters, `escapeAttributeValue` only
adds the surrounding quotes and `escapeCharData` is the identity. -/
theorem c3_clean_identity (s : Str)
    (hch : ∀ c ∈ s, _non_char c = false ∧ c ≠ 0x3C ∧ c ≠ 0x26 ∧ c ≠ 0x22 ∧ c ≠ 0x27)
    (hseq : ¬ ([0x5D, 0x5D, 0x3E] <:+: s)) :
    escapeAttributeValue s = 0x22 :: s ++ [0x22] ∧ escapeCharData s = s := by
  obtain ⟨ha, hc⟩ := clean_core s
    (fun c hc => ⟨(hch c hc).1, (hch c hc).2.1, (hch c hc).2.2.1, (hch c hc).2.2.2.1⟩) hseq
  constructor
  · show 0x22 :: (escAttCore s).1 ++ [0x22] = _
    rw [ha]
  · show (escCDCore s).1 = s
    rw [hc]

/-- C3 witness at the clean input `hello`. -/
theorem c3_clean_identity_witness :
    escapeAttributeValue (lit "hello") = 0x22 :: lit "hello" ++ [0x22] ∧
    escapeCharData (lit "hello") = lit "hello" :=
  c3_clean_identity (lit "hello") (by decide) (by decide)

/-- C4: writing the spec's example database with the `out` argument omitted
targets the default file name `mork.xml` and produces exactly the eight
expected lines, with the file closed. -/
theorem c4_example_end_to_end :
    _outputHelper exampleDb =
      (lit "mork.xml", Except.ok ⟨none,
        [lit "<?xml version=\"1.0\" encoding=\"UTF-8\" ?>",
         lit "<morkxml>",
         lit "    <table namespace=\"ns1\" id=\"1\">",
         lit "        <row namespace=\"ns1\" id=\"r1\">",
         lit "            <cell column=\"Name\">A &amp; B</cell>",
         lit "        </row>",
         lit "    </table>",
         lit "</morkxml>"], true⟩) := rfl

/-- C5: for every database, the writer (run with a sink whose writes all
succeed) produces exactly the spec-side `documentLines`: tables in stored
order; within a table all row blocks precede the metatable block; within a
metatable all table-level cell lines precede all meta-row blocks; within a
row the cell lines follow the row's own stored order; every block is a plain
concatenation, with no reordering, sorting or deduplication anywhere. -/
theorem c5_document_structure_order (db : MorkDatabase) :
    (_outputHelper db).2 = Except.ok ⟨none, documentLines db, true⟩ :=
  outputHelper_none db (lit "mork.xml")

/-- C6: escaping is single-pass — when a match fires at the head of the
input, the output is the replacement text followed by the escaping of the
text after the match; the replacement text is emitted verbatim and never
rescanned.  In particular `&` becomes exactly `&amp;`, and a second
application of the escaper (and only a second application) double-escapes. -/
theorem c6_single_pass :
    (∀ c rest, _non_char c = true ∨ c = 0x3C ∨ c = 0x26 →
      escapeCharData (c :: rest) = (_replacer [c]).1 ++ escapeCharData rest) ∧
    (∀ rest : Str, escapeCharData (0x5D :: 0x5D :: 0x3E :: rest) =
      lit "]]&gt;" ++ escapeCharData rest) ∧
    (∀ c rest, _non_char c = true ∨ c = 0x3C ∨ c = 0x26 ∨ c = 0x22 →
      attValueBody (c :: rest) = (_replacer [c]).1 ++ attValueBody rest) ∧
    escapeCharData (lit "&") = lit "&amp;" ∧
    escapeCharData (escapeCharData (lit "&")) = lit "&amp;amp;" := by
  refine ⟨?_, ?_, ?_, by decide, by decide⟩
  · intro c rest h
    exact cd_out_match c rest h
  · intro rest
    exact cd_out_cdend rest
  · intro c rest h
    exact att_out_match c rest h

/-- C6 witness: the head match on `&` emits `_replacer`'s text once and
continues after it. -/
theorem c6_single_pass_witness :
    escapeCharData (0x26 :: lit "x") = (_replacer [0x26]).1 ++ escapeCharData (lit "x") :=
  c6_single_pass.1 0x26 (lit "x") (by decide)

/-- C7 (amended): `_writeCell` performs exactly one print, whose record is
the self-contained text `<cell column="…">…</cell>` with no child elements;
that record is free of line breaks whenever the column name and cell value
are — but a cell value containing a raw line feed (legal XML, left
unescaped) makes the printed cell span two physical lines, so the claim's
"never spans multiple lines" is false as stated. -/
theorem c7_cell_single_record_amended (f : XFile) (col val : Str) (i : Nat)
    (h : f.budget = none) :
    _writeCell f col val i = .ok ⟨none, f.lines ++ [cellLine col val i], f.closed⟩ ∧
    ((0x0A : Nat) ∉ col → (0x0A : Nat) ∉ val → (0x0A : Nat) ∉ cellLine col val i) :=
  ⟨writeCell_none f col val i h, fun hc hv => lf_not_mem_cellLine col val i hc hv⟩

/-- C7 witness: a cell with line-feed-free column and value is one
line-break-free record. -/
theorem c7_cell_single_record_amended_witness :
    _writeCell ⟨none, [], false⟩ (lit "c") (lit "v") 0 =
      .ok ⟨none, [cellLine (lit "c") (lit "v") 0], false⟩ ∧
    (0x0A : Nat) ∉ cellLine (lit "c") (lit "v") 0 := by
  have h := c7_cell_single_record_amended ⟨none, [], false⟩ (lit "c") (lit "v") 0 rfl
  exact ⟨h.1, h.2 (by decide) (by decide)⟩

/-- C7 counterexample: a cell value consisting of a raw line feed is printed
as a single record that contains the line feed between the open and close
tags, so the cell element occupies two lines of the output file. -/
theorem c7_cell_newline_counterexample :
    _writeCell ⟨none, [], false⟩ (lit "c") [0x0A] 0 =
      .ok ⟨none, [lit "<cell column=\"c\">" ++ [0x0A] ++ lit "</cell>"], false⟩ ∧
    (0x0A : Nat) ∈ lit "<cell column=\"c\">" ++ [0x0A] ++ lit "</cell>" :=
  ⟨rfl, by decide⟩

/-- C8 (amended): the output file's `closed` flag is set exactly on the
successful exit path — when any write raises, the exception propagates with
the file still open (the code has no `try`/`finally` around `f.close()`), so
the claim's "closed on every exit path" is false as stated. -/
theorem c8_close_only_on_success (db : MorkDatabase) (out : Str) (b : Option Nat) :
    closedFlag ((_outputHelper db out b).2) = writeOk ((_outputHelper db out b).2) :=
  outputHelper_closed db out b

/-- C8 counterexample: when the very first write raises, `_outputHelper`
propagates the error and the file is left unclosed. -/
theorem c8_error_leaves_file_open_counterexample :
    (_outputHelper ⟨[], []⟩ (lit "mork.xml") (some 0)).2 =
      .error ⟨some 0, [], false⟩ := rfl

/-- C9: tab, line feed and carriage return are not illegal for either
escaper — on input made of those three characters and characters that are
neither reserved nor illegal (with no `]]>` sequence), both escapers copy
the input verbatim, the attribute escaper only adding its quotes, and no
warning is emitted. -/
theorem c9_whitespace_passthrough (s : Str)
    (h : ∀ c ∈ s, c = 0x09 ∨ c = 0x0A ∨ c = 0x0D ∨
      (_non_char c = false ∧ c ≠ 0x3C ∧ c ≠ 0x26 ∧ c ≠ 0x22 ∧ c ≠ 0x27))
    (hseq : ¬ ([0x5D, 0x5D, 0x3E] <:+: s)) :
    escapeAttributeValue s = 0x22 :: s ++ [0x22] ∧ escapeCharData s = s ∧
    attValueWarnings s = 0 ∧ charDataWarnings s = 0 := by
  have hch : ∀ c ∈ s, _non_char c = false ∧ c ≠ 0x3C ∧ c ≠ 0x26 ∧ c ≠ 0x22 := by
    intro c hc
    rcases h c hc with rfl | rfl | rfl | hx
    · exact ⟨by decide, by decide, by decide, by decide⟩
    · exact ⟨by decide, by decide, by decide, by decide⟩
    · exact ⟨by decide, by decide, by decide, by decide⟩
    · exact ⟨hx.1, hx.2.1, hx.2.2.1, hx.2.2.2.1⟩
  obtain ⟨ha, hc⟩ := clean_core s hch hseq
  refine ⟨?_, ?_, ?_, ?_⟩
  · show 0x22 :: (escAttCore s).1 ++ [0x22] = _
    rw [ha]
  · show (escCDCore s).1 = s
    rw [hc]
  · show (escAttCore s).2 = 0
    rw [ha]
  · show (escCDCore s).2 = 0
    rw [hc]

/-- C9 witness at the input `\t\n\r`. -/
theorem c9_whitespace_passthrough_witness :
    escapeAttributeValue [0x09, 0x0A, 0x0D] = 0x22 :: [0x09, 0x0A, 0x0D] ++ [0x22] ∧
    escapeCharData [0x09, 0x0A, 0x0D] = [0x09, 0x0A, 0x0D] ∧
    attValueWarnings [0x09, 0x0A, 0x0D] = 0 ∧
    charDataWarnings [0x09, 0x0A, 0x0D] = 0 :=
  c9_whitespace_passthrough [0x09, 0x0A, 0x0D] (by decide) (by decide)

/-- C10: a lone `>` is never escaped — in attribute context every `>`
survives in place unconditionally, and in character-data context every `>`
not completing a `]]>` occurrence (that is, not preceded by `]]`) survives
in place; the mapping of `>` to `&gt;` in `_replacements` is only ever
reached through the three-character `]]>` match. -/
theorem c10_gt_never_escaped :
    (∀ u v, attValueBody (u ++ 0x3E :: v) = attValueBody u ++ 0x3E :: attValueBody v) ∧
    (∀ u v, ¬ ([0x5D, 0x5D] <:+ u) →
      escapeCharData (u ++ 0x3E :: v) = escapeCharData u ++ 0x3E :: escapeCharData v) ∧
    (∀ v : Str, escapeCharData (0x5D :: 0x5D :: 0x3E :: v) =
      lit "]]&gt;" ++ escapeCharData v) := by
  refine ⟨?_, ?_, fun v => cd_out_cdend v⟩
  · intro u v
    have happ := att_append u (0x3E :: v)
    have hstep := att_step_raw 0x3E v (by decide)
    show (escAttCore (u ++ 0x3E :: v)).1 = _
    rw [happ, hstep]
    simp [attValueBody_def]
  · intro u v hu
    have cond1 : ¬ (([0x5D] <:+ u) ∧ (0x3E :: v).take 2 = [0x5D, 0x3E]) := by
      rintro ⟨-, htk⟩
      rcases v with _ | ⟨p, v⟩ <;> simp at htk
    have cond2 : ¬ (([0x5D, 0x5D] <:+ u) ∧ (0x3E :: v).take 1 = [0x3E]) :=
      fun hx => hu hx.1
    have hcd := cd_append u.length u (0x3E :: v) le_rfl cond1 cond2
    have hstep := cd_step_raw 0x3E v (by decide) (by simp)
    show (escCDCore (u ++ 0x3E :: v)).1 = _
    rw [hcd, hstep]
    simp [escapeCharData_def]

/-- C10 witness: the `>` after `]x` is copied verbatim by the char-data
escaper. -/
theorem c10_gt_never_escaped_witness :
    escapeCharData (lit "]x" ++ 0x3E :: lit "b") =
      escapeCharData (lit "]x") ++ 0x3E :: escapeCharData (lit "b") :=
  c10_gt_never_escaped.2.1 (lit "]x") (lit "b") (by decide)
